import Mathlib

/-!
Verification of the UTXO transaction validator and binary transaction codec.

Strings are modelled by their UTF-8 byte sequences (`List Nat`, one entry per
byte); buffers are `List Nat` with one entry per byte.  JavaScript `number`
fields that hold integral values (amounts, timestamps, output indices) are
modelled as `Int`/`Nat`; the one place where the `number` representation is
lossy — `Number(bigint)` conversion during decoding, which rounds to the
nearest IEEE-754 double — is modelled explicitly by `jsNum`.  TypeScript code
that throws is modelled with `Option`, `none` standing for a thrown error.
-/

namespace UTXO

/-- UTF-8 bytes of an ASCII string literal (all literals used here are ASCII,
so each character is one byte). -/
def ascii (s : String) : List Nat := s.data.map Char.toNat

/-- Decimal ASCII digits of a natural number, as produced by JavaScript
string interpolation of a nonnegative integer. -/
def natDec (n : Nat) : List Nat := (Nat.toDigits 10 n).map Char.toNat

/-- Decimal ASCII rendering of an integer, as produced by JavaScript string
interpolation of an integral `number`. -/
def intDec (i : Int) : List Nat :=
  if i < 0 then 45 :: natDec i.natAbs else natDec i.toNat

/-- Fuel-driven base-2 logarithm (floor), total and kernel-reducible. -/
def log2F : Nat → Nat → Nat
  | 0, _ => 0
  | f + 1, n => if n < 2 then 0 else log2F f (n / 2) + 1

/-- Floor of the base-2 logarithm. -/
def natLog2 (n : Nat) : Nat := log2F (n + 1) n

/-- Rounding of a natural number to the nearest integer exactly representable
as an IEEE-754 double (53-bit significand, ties to even).  This models the
JavaScript `Number(bigint)` conversion for the magnitudes produced by the
codec (below 2^64). -/
def jsNum (n : Nat) : Nat :=
  if n < 9007199254740992 then n
  else
    let e := natLog2 n - 52
    let q := n / 2 ^ e
    let r := n % 2 ^ e
    let h := 2 ^ (e - 1)
    let q' := if r < h then q else if h < r then q + 1
              else if q % 2 = 0 then q else q + 1
    q' * 2 ^ e

/-! ## Data model (src/types.ts, as used by the sources in src/) -/

/-- Model of the UTXO reference: `{ txId: string; outputIndex: number }`. -/
structure UtxoId where
  txId : List Nat
  outputIndex : Nat
deriving DecidableEq, Repr

/-- Model of `TransactionInput`. -/
structure TransactionInput where
  utxoId : UtxoId
  owner : List Nat
  signature : List Nat
deriving DecidableEq, Repr

/-- Model of `TransactionOutput`. -/
structure TransactionOutput where
  recipient : List Nat
  amount : Int
deriving DecidableEq, Repr

/-- Model of `Transaction`. -/
structure Transaction where
  id : List Nat
  inputs : List TransactionInput
  outputs : List TransactionOutput
  timestamp : Int
deriving DecidableEq, Repr

/-! ## Binary codec (src/utils/binary-encoding.ts) -/

/-- Model of the auxiliary `encodeString` from binary-encoding.ts, applied to
a non-null string: a 1-byte length prefix followed by the UTF-8 bytes, failing
(`none`, modelling `throw`) when the string exceeds 255 bytes. -/
def encodeString (s : List Nat) : Option (List Nat) :=
  if 255 < s.length then none else some (s.length :: s)

/-- Little-endian 4-byte encoding of a natural number below 2^32. -/
def u32LE (n : Nat) : List Nat :=
  [n % 256, n / 256 % 256, n / 65536 % 256, n / 16777216 % 256]

/-- Little-endian 8-byte encoding of a natural number below 2^64. -/
def u64LE (n : Nat) : List Nat :=
  [n % 256, n / 256 % 256, n / 65536 % 256, n / 16777216 % 256,
   n / 4294967296 % 256, n / 1099511627776 % 256,
   n / 281474976710656 % 256, n / 72057594037927936 % 256]

/-- Model of `Buffer.writeUInt32LE`: throws (`none`) unless the value is an
integer in `[0, 2^32)` (negative values cannot arise for a `Nat`). -/
def writeUInt32LE (n : Nat) : Option (List Nat) :=
  if n < 4294967296 then some (u32LE n) else none

/-- Model of `BigInt(x)` followed by `Buffer.writeBigUInt64LE`: throws
(`none`) unless the value is an integer in `[0, 2^64)`. -/
def writeBigUInt64LE (i : Int) : Option (List Nat) :=
  if 0 ≤ i ∧ i < 18446744073709551616 then some (u64LE i.toNat) else none

/-- Body of the per-input loop of `encodeTransaction`: source transaction id
(length-prefixed), 4-byte output index, owner and signature
(length-prefixed). -/
def encodeInput (inp : TransactionInput) : Option (List Nat) := do
  let a ← encodeString inp.utxoId.txId
  let b ← writeUInt32LE inp.utxoId.outputIndex
  let c ← encodeString inp.owner
  let d ← encodeString inp.signature
  some (a ++ b ++ c ++ d)

/-- Sequential encoding of the input list (the `for` loop pushing parts). -/
def encodeInputs : List TransactionInput → Option (List Nat)
  | [] => some []
  | i :: l => do
    let c ← encodeInput i
    let rest ← encodeInputs l
    some (c ++ rest)

/-- Body of the per-output loop of `encodeTransaction`: recipient
(length-prefixed) then 8-byte amount. -/
def encodeOutput (o : TransactionOutput) : Option (List Nat) := do
  let a ← encodeString o.recipient
  let b ← writeBigUInt64LE o.amount
  some (a ++ b)

/-- Sequential encoding of the output list (the `for` loop pushing parts). -/
def encodeOutputs : List TransactionOutput → Option (List Nat)
  | [] => some []
  | o :: l => do
    let c ← encodeOutput o
    let rest ← encodeOutputs l
    some (c ++ rest)

/-- Model of `encodeTransaction`: id, 1-byte input count (failing when above
255), the inputs, 1-byte output count (failing when above 255), the outputs,
and the 8-byte timestamp, concatenated. -/
def encodeTransaction (t : Transaction) : Option (List Nat) := do
  let idB ← encodeString t.id
  if 255 < t.inputs.length then none else do
  let inB ← encodeInputs t.inputs
  if 255 < t.outputs.length then none else do
  let outB ← encodeOutputs t.outputs
  let tsB ← writeBigUInt64LE t.timestamp
  some (idB ++ t.inputs.length :: inB ++ t.outputs.length :: outB ++ tsB)

/-- Model of `Buffer.prototype.toString("utf8", s, e)` at the byte level:
both bounds are clamped to the buffer, never throwing. -/
def bufSlice (buf : List Nat) (s e : Nat) : List Nat := (buf.take e).drop s

/-- Model of `Buffer.readUInt8`: throws (`none`) when the offset is out of
range. -/
def readUInt8 (buf : List Nat) (off : Nat) : Option Nat := buf[off]?

/-- Little-endian value of a byte list. -/
def bytesToNatLE (l : List Nat) : Nat := l.foldr (fun b acc => b + 256 * acc) 0

/-- Model of `Buffer.readUInt32LE`: throws (`none`) unless 4 bytes are
available at the offset. -/
def readUInt32LE (buf : List Nat) (off : Nat) : Option Nat :=
  if off + 4 ≤ buf.length then some (bytesToNatLE (bufSlice buf off (off + 4))) else none

/-- Model of `Buffer.readBigUInt64LE`: throws (`none`) unless 8 bytes are
available at the offset. -/
def readBigUInt64LE (buf : List Nat) (off : Nat) : Option Nat :=
  if off + 8 ≤ buf.length then some (bytesToNatLE (bufSlice buf off (off + 8))) else none

/-- Model of the auxiliary `decodeString`: reads the 1-byte length (throwing
if out of range), then slices the declared number of bytes with `toString`,
which clamps to the buffer end without failing; returns the value and the
next offset (which may point past the buffer end when the declared length
overruns it). -/
def decodeString (buf : List Nat) (off : Nat) : Option (List Nat × Nat) := do
  let len ← readUInt8 buf off
  some (bufSlice buf (off + 1) (off + 1 + len), off + 1 + len)

/-- The input-decoding loop of `decodeTransaction`, by remaining count. -/
def decodeInputs (buf : List Nat) : Nat → Nat → Option (List TransactionInput × Nat)
  | 0, off => some ([], off)
  | n + 1, off => do
    let (txId, o1) ← decodeString buf off
    let outputIndex ← readUInt32LE buf o1
    let (owner, o2) ← decodeString buf (o1 + 4)
    let (sig, o3) ← decodeString buf o2
    let (rest, o4) ← decodeInputs buf n o3
    some (⟨⟨txId, outputIndex⟩, owner, sig⟩ :: rest, o4)

/-- The output-decoding loop of `decodeTransaction`, by remaining count.  The
decoded 64-bit amount passes through `Number(...)` (`jsNum`). -/
def decodeOutputs (buf : List Nat) : Nat → Nat → Option (List TransactionOutput × Nat)
  | 0, off => some ([], off)
  | n + 1, off => do
    let (recipient, o1) ← decodeString buf off
    let amount ← readBigUInt64LE buf o1
    let (rest, o2) ← decodeOutputs buf n (o1 + 8)
    some (⟨recipient, Int.ofNat (jsNum amount)⟩ :: rest, o2)

/-- Model of `decodeTransaction`, additionally returning the final offset
(the source's `offset` variable after the final `offset += 8`).  The decoded
timestamp passes through `Number(...)` (`jsNum`).  No check of trailing bytes
is performed after the timestamp. -/
def decodeTransactionAux (buf : List Nat) : Option (Transaction × Nat) := do
  let (id, o1) ← decodeString buf 0
  let nIn ← readUInt8 buf o1
  let (inputs, o2) ← decodeInputs buf nIn (o1 + 1)
  let nOut ← readUInt8 buf o2
  let (outputs, o3) ← decodeOutputs buf nOut (o2 + 1)
  let ts ← readBigUInt64LE buf o3
  some (⟨id, inputs, outputs, Int.ofNat (jsNum ts)⟩, o3 + 8)

/-- Model of `decodeTransaction` (the returned `Transaction`). -/
def decodeTransaction (buf : List Nat) : Option Transaction :=
  (decodeTransactionAux buf).map Prod.fst

def wfInput (i : TransactionInput) : Prop :=
  i.utxoId.txId.length ≤ 255 ∧ i.utxoId.outputIndex < 4294967296 ∧
  i.owner.length ≤ 255 ∧ i.signature.length ≤ 255

instance : DecidablePred wfInput := fun i => by unfold wfInput; infer_instance

def wfOutput (o : TransactionOutput) : Prop :=
  o.recipient.length ≤ 255 ∧ 0 ≤ o.amount ∧ o.amount < 18446744073709551616

instance : DecidablePred wfOutput := fun o => by unfold wfOutput; infer_instance

def wfTransaction (t : Transaction) : Prop :=
  t.id.length ≤ 255 ∧ t.inputs.length ≤ 255 ∧ (∀ i ∈ t.inputs, wfInput i) ∧
  t.outputs.length ≤ 255 ∧ (∀ o ∈ t.outputs, wfOutput o) ∧
  0 ≤ t.timestamp ∧ t.timestamp < 18446744073709551616

instance (t : Transaction) : Decidable (wfTransaction t) := by unfold wfTransaction; infer_instance

def jsRoundOutput (o : TransactionOutput) : TransactionOutput :=
  ⟨o.recipient, Int.ofNat (jsNum o.amount.toNat)⟩

def jsRound (t : Transaction) : Transaction :=
  ⟨t.id, t.inputs, t.outputs.map jsRoundOutput, Int.ofNat (jsNum t.timestamp.toNat)⟩

/-! ## Validator data types.  The error taxonomy and `createValidationError`
live in src/errors.ts, which is not part of the sources; they are modelled
from the spec, which fixes the seven error kinds and says each carries a
human-readable message.  The messages themselves are the template literals
visible at the call sites in src/transaction-validator.ts. -/

/-- Modelled from the spec: the `VALIDATION_ERRORS` taxonomy of src/errors.ts:
`EmptyInputs, EmptyOutputs, UtxoNotFound, DoubleSpending, NegativeAmount,
InvalidSignature, AmountMismatch`. -/
inductive ValidationErrorCode where
  | EMPTY_INPUTS
  | EMPTY_OUTPUTS
  | UTXO_NOT_FOUND
  | DOUBLE_SPENDING
  | NEGATIVE_AMOUNT
  | INVALID_SIGNATURE
  | AMOUNT_MISMATCH
deriving DecidableEq, Repr

/-- Modelled from the spec: a validation error carries its kind and a
human-readable message (src/errors.ts is not among the sources). -/
structure ValidationError where
  code : ValidationErrorCode
  message : List Nat
deriving DecidableEq, Repr

/-- Modelled from the spec: `createValidationError` of src/errors.ts pairs an
error kind with a message. -/
def createValidationError (c : ValidationErrorCode) (m : List Nat) : ValidationError := ⟨c, m⟩

/-- Modelled from the spec: `ValidationResult { valid, errors }`. -/
structure ValidationResult where
  valid : Bool
  errors : List ValidationError
deriving DecidableEq, Repr

/-- The external pool's unspent output: owner and amount (only `amount` is read
by the validator). -/
structure UnspentOutput where
  owner : List Nat
  amount : Int
deriving DecidableEq, Repr

/-! ## Canonical unsigned payload (`createTransactionDataForSigning_`),
i.e. `JSON.stringify` of the signature-stripped transaction object.  The JSON
serialization is spelled out byte-for-byte: property order is object literal
order, strings are quoted with the standard JSON escapes, and integral
numbers below 10^21 print in plain decimal. -/

/-- Lowercase hexadecimal digit, as in JSON `\u00xx` escapes. -/
def hexDigit (n : Nat) : Nat := if n < 10 then 48 + n else 87 + n

/-- JSON escaping of one string byte, as `JSON.stringify` does: `"` and `\`
are backslash-escaped, the control characters 8, 9, 10, 12, 13 use their
short escapes, other control bytes use `\u00xx`, everything else is
verbatim. -/
def jsonEscapeByte (b : Nat) : List Nat :=
  if b = 34 then [92, 34]
  else if b = 92 then [92, 92]
  else if b = 8 then [92, 98]
  else if b = 9 then [92, 116]
  else if b = 10 then [92, 110]
  else if b = 12 then [92, 102]
  else if b = 13 then [92, 114]
  else if b < 32 then [92, 117, 48, 48, hexDigit (b / 16), hexDigit (b % 16)]
  else [b]

/-- A JSON string literal: quoted, escaped. -/
def jsonString (s : List Nat) : List Nat := 34 :: ((s.map jsonEscapeByte).flatten ++ [34])

/-- Comma-separated concatenation, as between JSON array elements. -/
def joinComma (l : List (List Nat)) : List Nat := (l.intersperse (ascii ",")).flatten

/-- JSON for one entry of the `inputs` array of the unsigned object:
`{ utxoId: input.utxoId, owner: input.owner }` — the signature is omitted. -/
def inputJsonForSigning (i : TransactionInput) : List Nat :=
  ascii "\x7b\"utxoId\":\x7b\"txId\":" ++ jsonString i.utxoId.txId ++
  ascii ",\"outputIndex\":" ++ natDec i.utxoId.outputIndex ++
  ascii "\x7d,\"owner\":" ++ jsonString i.owner ++ ascii "\x7d"

/-- JSON for one entry of the `outputs` array (outputs are unchanged). -/
def outputJson (o : TransactionOutput) : List Nat :=
  ascii "\x7b\"recipient\":" ++ jsonString o.recipient ++
  ascii ",\"amount\":" ++ intDec o.amount ++ ascii "\x7d"

/-- Model of `createTransactionDataForSigning_`: `JSON.stringify` of
`{ id, inputs: inputs.map(i => ({ utxoId: i.utxoId, owner: i.owner })),
outputs, timestamp }`. -/
def createTransactionDataForSigning_ (t : Transaction) : List Nat :=
  ascii "\x7b\"id\":" ++ jsonString t.id ++
  ascii ",\"inputs\":[" ++ joinComma (t.inputs.map inputJsonForSigning) ++
  ascii "],\"outputs\":[" ++ joinComma (t.outputs.map outputJson) ++
  ascii "],\"timestamp\":" ++ intDec t.timestamp ++ ascii "\x7d"

/-! ## The validator (src/transaction-validator.ts).  The pool lookup
`getUTXO` and the signature primitive `verify` are the two external
collaborators; both are parameters. -/

/-- The dedup key `` `${input.utxoId.txId}:${input.owner}:${input.utxoId.outputIndex}` ``:
colon-joined string concatenation, NOT a structural triple. -/
def txKey (i : TransactionInput) : List Nat :=
  i.utxoId.txId ++ ascii ":" ++ i.owner ++ ascii ":" ++ natDec i.utxoId.outputIndex

/-- The mutable state of the input loop: accumulated errors, the `usedUTXOs`
set (membership is what matters; insertion order is kept), and the running
input sum. -/
structure VState where
  errors : List ValidationError
  usedUTXOs : List (List Nat)
  inputSum : Int
deriving DecidableEq, Repr

def emptyInputsError : ValidationError :=
  createValidationError .EMPTY_INPUTS (ascii "Transaction must have at least one input")

def utxoNotFoundError (i : TransactionInput) : ValidationError :=
  createValidationError .UTXO_NOT_FOUND
    (ascii "Input UTXO " ++ i.utxoId.txId ++ ascii " not found")

def doubleSpendingError (i : TransactionInput) : ValidationError :=
  createValidationError .DOUBLE_SPENDING
    (ascii "Double spending detected for UTXO " ++ i.utxoId.txId)

def negativeInputAmountError (i : TransactionInput) : ValidationError :=
  createValidationError .NEGATIVE_AMOUNT
    (ascii "Negative or 0 amount in UTXO " ++ i.utxoId.txId)

def invalidSignatureError (i : TransactionInput) : ValidationError :=
  createValidationError .INVALID_SIGNATURE
    (ascii "Invalid signature for input UTXO " ++ i.utxoId.txId)

def emptyOutputsError : ValidationError :=
  createValidationError .EMPTY_OUTPUTS (ascii "Transaction must have at least one output")

def negativeOutputAmountError : ValidationError :=
  createValidationError .NEGATIVE_AMOUNT (ascii "Output amounts must be positive")

def amountMismatchError (inputSum outputSum : Int) : ValidationError :=
  createValidationError .AMOUNT_MISMATCH
    (ascii "Input sum " ++ intDec inputSum ++ ascii " does not match output sum " ++
     intDec outputSum)

/-- One iteration of the input loop of `validateTransaction`: resolve the
UTXO (else `UtxoNotFound` and continue), check the dedup key (else
`DoubleSpending` and continue), check the amount (else `NegativeAmount` and
continue), record the key and add the amount, then recompute the signing
payload and verify the signature (emitting `InvalidSignature` on failure
without undoing the amount accounting). -/
def processInput (getUTXO : List Nat → Nat → Option UnspentOutput)
    (verify : List Nat → List Nat → List Nat → Bool)
    (t : Transaction) (s : VState) (input : TransactionInput) : VState :=
  match getUTXO input.utxoId.txId input.utxoId.outputIndex with
  | none => { s with errors := s.errors ++ [utxoNotFoundError input] }
  | some u =>
    if txKey input ∈ s.usedUTXOs then
      { s with errors := s.errors ++ [doubleSpendingError input] }
    else if u.amount ≤ 0 then
      { s with errors := s.errors ++ [negativeInputAmountError input] }
    else
      let s' : VState := { s with usedUTXOs := s.usedUTXOs ++ [txKey input],
                                  inputSum := s.inputSum + u.amount }
      let txData := createTransactionDataForSigning_ t
      if verify txData input.signature input.owner then s'
      else { s' with errors := s'.errors ++ [invalidSignatureError input] }

/-- The input loop. -/
def validateInputs (getUTXO : List Nat → Nat → Option UnspentOutput)
    (verify : List Nat → List Nat → List Nat → Bool)
    (t : Transaction) (s : VState) (l : List TransactionInput) : VState :=
  l.foldl (processInput getUTXO verify t) s

/-- One iteration of the output loop: amounts `≤ 0` emit `NegativeAmount`
and are excluded from the output sum; positive amounts are added. -/
def processOutput (s : List ValidationError × Int) (output : TransactionOutput) :
    List ValidationError × Int :=
  if output.amount ≤ 0 then (s.1 ++ [negativeOutputAmountError], s.2)
  else (s.1, s.2 + output.amount)

/-- The output loop. -/
def validateOutputs (s : List ValidationError × Int) (l : List TransactionOutput) :
    List ValidationError × Int :=
  l.foldl processOutput s

/-- The `EmptyInputs` check preceding the input loop. -/
def initialErrors (t : Transaction) : List ValidationError :=
  if t.inputs.length = 0 then [emptyInputsError] else []

/-- The `EmptyOutputs` check between the two loops. -/
def emptyOutputsErrors (t : Transaction) : List ValidationError :=
  if t.outputs.length = 0 then [emptyOutputsError] else []

/-- Model of `validateTransaction`: the empty-inputs check, the input loop,
the empty-outputs check, the output loop, the sum comparison, and the final
result with `valid` true exactly when no error was collected. -/
def validateTransaction (getUTXO : List Nat → Nat → Option UnspentOutput)
    (verify : List Nat → List Nat → List Nat → Bool)
    (t : Transaction) : ValidationResult :=
  let s1 := validateInputs getUTXO verify t ⟨initialErrors t, [], 0⟩ t.inputs
  let e2 := s1.errors ++ emptyOutputsErrors t
  let r3 := validateOutputs (e2, 0) t.outputs
  let e4 := if s1.inputSum ≠ r3.2 then r3.1 ++ [amountMismatchError s1.inputSum r3.2]
            else r3.1
  ⟨e4.isEmpty, e4⟩

/-- One iteration of the input loop when the signing payload is supplied
from outside instead of being recomputed. -/
def processInputWith (getUTXO : List Nat → Nat → Option UnspentOutput)
    (verify : List Nat → List Nat → List Nat → Bool)
    (txData : List Nat) (s : VState) (input : TransactionInput) : VState :=
  match getUTXO input.utxoId.txId input.utxoId.outputIndex with
  | none => { s with errors := s.errors ++ [utxoNotFoundError input] }
  | some u =>
    if txKey input ∈ s.usedUTXOs then
      { s with errors := s.errors ++ [doubleSpendingError input] }
    else if u.amount ≤ 0 then
      { s with errors := s.errors ++ [negativeInputAmountError input] }
    else
      let s' : VState := { s with usedUTXOs := s.usedUTXOs ++ [txKey input],
                                  inputSum := s.inputSum + u.amount }
      if verify txData input.signature input.owner then s'
      else { s' with errors := s'.errors ++ [invalidSignatureError input] }

/-- Modelled from the spec: the refinement that computes the canonical
unsigned payload once per transaction and reuses it for every input's
signature verification, instead of recomputing it inside the loop. -/
def validateTransactionOnce (getUTXO : List Nat → Nat → Option UnspentOutput)
    (verify : List Nat → List Nat → List Nat → Bool)
    (t : Transaction) : ValidationResult :=
  let txData := createTransactionDataForSigning_ t
  let s1 := t.inputs.foldl (processInputWith getUTXO verify txData) ⟨initialErrors t, [], 0⟩
  let e2 := s1.errors ++ emptyOutputsErrors t
  let r3 := validateOutputs (e2, 0) t.outputs
  let e4 := if s1.inputSum ≠ r3.2 then r3.1 ++ [amountMismatchError s1.inputSum r3.2]
            else r3.1
  ⟨e4.isEmpty, e4⟩

/-! ## Validator lemmas: error accumulation factors through the loops, the
`usedUTXOs` set is characterized by the inputs that resolved with positive
amounts, and only the final balance check emits `AMOUNT_MISMATCH`. -/

/-- An input resolves in the pool to an unspent output of strictly positive
amount. -/
def resolvesPositive (getUTXO : List Nat → Nat → Option UnspentOutput)
    (i : TransactionInput) : Prop :=
  ∃ u, getUTXO i.utxoId.txId i.utxoId.outputIndex = some u ∧ 0 < u.amount

/-! ## Nullable string fields.  At runtime a transaction built with `as any`
casts may carry `null`/`undefined` in any string position; `encodeString`
starts with `str ?? ""`, so a missing string is silently replaced by the
empty string.  The `N`-structures are the same data with every string field
optional (`none` = null/undefined); `encodeTransactionN` is the same
encoder read at that looser type. -/

structure NUtxoId where
  txId : Option (List Nat)
  outputIndex : Nat
deriving DecidableEq, Repr

structure NTransactionInput where
  utxoId : NUtxoId
  owner : Option (List Nat)
  signature : Option (List Nat)
deriving DecidableEq, Repr

structure NTransactionOutput where
  recipient : Option (List Nat)
  amount : Int
deriving DecidableEq, Repr

structure NTransaction where
  id : Option (List Nat)
  inputs : List NTransactionInput
  outputs : List NTransactionOutput
  timestamp : Int
deriving DecidableEq, Repr

/-- Model of `encodeString` applied to a possibly-null string: the
`str ?? ""` null-coalescing step replaces `none` by the empty string. -/
def encodeStringN (s : Option (List Nat)) : Option (List Nat) := encodeString (s.getD [])

/-- Per-input encoding at the nullable type. -/
def encodeInputN (inp : NTransactionInput) : Option (List Nat) := do
  let a ← encodeStringN inp.utxoId.txId
  let b ← writeUInt32LE inp.utxoId.outputIndex
  let c ← encodeStringN inp.owner
  let d ← encodeStringN inp.signature
  some (a ++ b ++ c ++ d)

/-- Input-list encoding at the nullable type. -/
def encodeInputsN : List NTransactionInput → Option (List Nat)
  | [] => some []
  | i :: l => do
    let c ← encodeInputN i
    let rest ← encodeInputsN l
    some (c ++ rest)

/-- Per-output encoding at the nullable type. -/
def encodeOutputN (o : NTransactionOutput) : Option (List Nat) := do
  let a ← encodeStringN o.recipient
  let b ← writeBigUInt64LE o.amount
  some (a ++ b)

/-- Output-list encoding at the nullable type. -/
def encodeOutputsN : List NTransactionOutput → Option (List Nat)
  | [] => some []
  | o :: l => do
    let c ← encodeOutputN o
    let rest ← encodeOutputsN l
    some (c ++ rest)

/-- Model of `encodeTransaction` read at the nullable type. -/
def encodeTransactionN (t : NTransaction) : Option (List Nat) := do
  let idB ← encodeStringN t.id
  if 255 < t.inputs.length then none else do
  let inB ← encodeInputsN t.inputs
  if 255 < t.outputs.length then none else do
  let outB ← encodeOutputsN t.outputs
  let tsB ← writeBigUInt64LE t.timestamp
  some (idB ++ t.inputs.length :: inB ++ t.outputs.length :: outB ++ tsB)

/-- Replacing every null string field by the empty string. -/
def nSquashInput (i : NTransactionInput) : TransactionInput :=
  ⟨⟨i.utxoId.txId.getD [], i.utxoId.outputIndex⟩, i.owner.getD [], i.signature.getD []⟩

/-- Replacing a null recipient by the empty string. -/
def nSquashOutput (o : NTransactionOutput) : TransactionOutput :=
  ⟨o.recipient.getD [], o.amount⟩

/-- The transaction with every null string field replaced by the empty
string. -/
def nSquash (t : NTransaction) : Transaction :=
  ⟨t.id.getD [], t.inputs.map nSquashInput, t.outputs.map nSquashOutput, t.timestamp⟩

/-- The state after the `EmptyInputs` check and the input loop of
`validateTransaction` (the code's `errors`/`usedUTXOs`/`inputSum` right
before the outputs section). -/
def inputPass (g : List Nat → Nat → Option UnspentOutput)
    (v : List Nat → List Nat → List Nat → Bool) (t : Transaction) : VState :=
  validateInputs g v t ⟨initialErrors t, [], 0⟩ t.inputs

/-- The errors and output sum after the `EmptyOutputs` check and the output
loop. -/
def outputPass (g : List Nat → Nat → Option UnspentOutput)
    (v : List Nat → List Nat → List Nat → Bool) (t : Transaction) :
    List ValidationError × Int :=
  validateOutputs ((inputPass g v t).errors ++ emptyOutputsErrors t, 0) t.outputs

/-- Pool for the C4 counterexample: both referenced UTXOs exist with positive
amounts. -/
def poolC4 : List Nat → Nat → Option UnspentOutput := fun txid idx =>
  if txid = ascii "a:b" ∧ idx = 1 then some ⟨ascii "x", 5⟩
  else if txid = ascii "a" ∧ idx = 1 then some ⟨ascii "y", 5⟩
  else none

/-- Signature verifier for the C4 counterexample: always accepts. -/
def verifyC4 : List Nat → List Nat → List Nat → Bool := fun _ _ _ => true

/-- Transaction for the C4 counterexample: the two inputs have structurally
distinct (txId, owner, outputIndex) triples, but both colon-join to the key
string "a:b:c:1". -/
def txC4 : Transaction :=
  ⟨ascii "t2",
   [⟨⟨ascii "a:b", 1⟩, ascii "c", ascii "s1"⟩, ⟨⟨ascii "a", 1⟩, ascii "b:c", ascii "s2"⟩],
   [⟨ascii "r", 10⟩], 0⟩

/-- Pool for the C5 and C6 witnesses. -/
def poolW : List Nat → Nat → Option UnspentOutput := fun txid idx =>
  if txid = ascii "a" ∧ idx = 0 then some ⟨ascii "alice", 100⟩ else none

/-- Verifier that always accepts. -/
def verifyW : List Nat → List Nat → List Nat → Bool := fun _ _ _ => true

/-- Transaction spending 100 into an output of 90. -/
def txC5 : Transaction :=
  ⟨ascii "t", [⟨⟨ascii "a", 0⟩, ascii "alice", ascii "s"⟩], [⟨ascii "bob", 90⟩], 7⟩

/-- Verifier that always rejects. -/
def verifyC6 : List Nat → List Nat → List Nat → Bool := fun _ _ _ => false

/-- Balanced transaction whose signature fails verification. -/
def txC6 : Transaction :=
  ⟨ascii "t", [⟨⟨ascii "a", 0⟩, ascii "alice", ascii "bad"⟩], [⟨ascii "bob", 100⟩], 7⟩

/-! ## Theorems -/

/-! ## Codec lemmas: parsing an encoded chunk, stability under extension,
offset monotonicity, and the encode/decode round trip -/

theorem bufSlice_at {buf : List Nat} (pre s suf : List Nat) (hbuf : buf = pre ++ (s ++ suf)) :
    bufSlice buf pre.length (pre.length + s.length) = s := by
  subst hbuf
  unfold bufSlice
  rw [List.take_append_eq_append_take, List.take_of_length_le (Nat.le_add_right _ _),
      Nat.add_sub_cancel_left, List.take_append_eq_append_take,
      List.take_of_length_le (Nat.le_refl _), Nat.sub_self, List.take_zero,
      List.append_nil, List.drop_left]

theorem getByte_at {buf : List Nat} (pre : List Nat) (b : Nat) (suf : List Nat) {off : Nat}
    (hbuf : buf = pre ++ b :: suf) (hoff : off = pre.length) : buf[off]? = some b := by
  subst hbuf; subst hoff
  rw [List.getElem?_append_right (Nat.le_refl _), Nat.sub_self]
  simp

theorem decodeString_at {buf : List Nat} (pre s suf : List Nat) {off : Nat}
    (hbuf : buf = pre ++ s.length :: (s ++ suf)) (hoff : off = pre.length) :
    decodeString buf off = some (s, off + (s.length + 1)) := by
  have hget : buf[off]? = some s.length := getByte_at pre s.length (s ++ suf) hbuf hoff
  have hslice : bufSlice buf (off + 1) (off + 1 + s.length) = s := by
    have h2 : buf = (pre ++ [s.length]) ++ (s ++ suf) := by simp [hbuf]
    have h3 := bufSlice_at (pre ++ [s.length]) s suf h2
    simpa [hoff] using h3
  simp [decodeString, readUInt8, hget]
  constructor
  · exact hslice
  · omega

theorem bytesToNatLE_u32 {n : Nat} (h : n < 4294967296) : bytesToNatLE (u32LE n) = n := by
  simp [bytesToNatLE, u32LE]
  omega

theorem readUInt32LE_at {buf : List Nat} (pre suf : List Nat) {n off : Nat} (hn : n < 4294967296)
    (hbuf : buf = pre ++ (u32LE n ++ suf)) (hoff : off = pre.length) :
    readUInt32LE buf off = some n := by
  have hlen : off + 4 ≤ buf.length := by
    subst hbuf; subst hoff; simp [u32LE]
  have hslice : bufSlice buf off (off + 4) = n % 256 :: (n / 256 % 256 :: (n / 65536 % 256 :: (n / 16777216 % 256 :: []))) := by
    have h3 := bufSlice_at pre (u32LE n) suf hbuf
    simpa [u32LE, hoff] using h3
  have hval : bytesToNatLE (n % 256 :: (n / 256 % 256 :: (n / 65536 % 256 :: (n / 16777216 % 256 :: [])))) = n := by
    have := bytesToNatLE_u32 hn
    simpa [u32LE] using this
  simp [readUInt32LE, hlen, hslice, hval]

theorem decodeString_mono {buf : List Nat} {off : Nat} {v : List Nat} {n : Nat}
    (h : decodeString buf off = some (v, n)) : off < n := by
  cases hg : buf[off]? with
  | none => simp [decodeString, readUInt8, hg] at h
  | some len =>
    simp [decodeString, readUInt8, hg] at h
    omega

theorem bytesToNatLE_u64 {n : Nat} (h : n < 18446744073709551616) : bytesToNatLE (u64LE n) = n := by
  simp [bytesToNatLE, u64LE]
  omega

theorem readBigUInt64LE_at {buf : List Nat} (pre suf : List Nat) {n off : Nat}
    (hn : n < 18446744073709551616)
    (hbuf : buf = pre ++ (u64LE n ++ suf)) (hoff : off = pre.length) :
    readBigUInt64LE buf off = some n := by
  have hlen : off + 8 ≤ buf.length := by
    subst hbuf; subst hoff; simp [u64LE]
  have hslice : bufSlice buf off (off + 8) = u64LE n := by
    have h3 := bufSlice_at pre (u64LE n) suf hbuf
    have hl : (u64LE n).length = 8 := by simp [u64LE]
    rw [hl] at h3
    rw [hoff]
    exact h3
  simp [readBigUInt64LE, hlen, hslice, bytesToNatLE_u64 hn]

theorem decodeInputs_mono {buf : List Nat} : ∀ (c : Nat) {off : Nat} {l : List TransactionInput} {n : Nat},
    decodeInputs buf c off = some (l, n) → off ≤ n := by
  intro c
  induction c with
  | zero =>
    intro off l n h
    simp [decodeInputs] at h
    omega
  | succ c ih =>
    intro off l n h
    cases h1 : decodeString buf off with
    | none => simp [decodeInputs, h1] at h
    | some p1 =>
      obtain ⟨txId, o1⟩ := p1
      cases h2 : readUInt32LE buf o1 with
      | none => simp [decodeInputs, h1, h2] at h
      | some idx =>
        cases h3 : decodeString buf (o1 + 4) with
        | none => simp [decodeInputs, h1, h2, h3] at h
        | some p3 =>
          obtain ⟨owner, o2⟩ := p3
          cases h4 : decodeString buf o2 with
          | none => simp [decodeInputs, h1, h2, h3, h4] at h
          | some p4 =>
            obtain ⟨sig, o3⟩ := p4
            cases h5 : decodeInputs buf c o3 with
            | none => simp [decodeInputs, h1, h2, h3, h4, h5] at h
            | some p5 =>
              obtain ⟨rest, o4⟩ := p5
              simp [decodeInputs, h1, h2, h3, h4, h5] at h
              have m1 := decodeString_mono h1
              have m3 := decodeString_mono h3
              have m4 := decodeString_mono h4
              have m5 := ih h5
              omega

theorem decodeOutputs_mono {buf : List Nat} : ∀ (c : Nat) {off : Nat} {l : List TransactionOutput} {n : Nat},
    decodeOutputs buf c off = some (l, n) → off ≤ n := by
  intro c
  induction c with
  | zero =>
    intro off l n h
    simp [decodeOutputs] at h
    omega
  | succ c ih =>
    intro off l n h
    cases h1 : decodeString buf off with
    | none => simp [decodeOutputs, h1] at h
    | some p1 =>
      obtain ⟨recipient, o1⟩ := p1
      cases h2 : readBigUInt64LE buf o1 with
      | none => simp [decodeOutputs, h1, h2] at h
      | some amt =>
        cases h3 : decodeOutputs buf c (o1 + 8) with
        | none => simp [decodeOutputs, h1, h2, h3] at h
        | some p3 =>
          obtain ⟨rest, o2⟩ := p3
          simp [decodeOutputs, h1, h2, h3] at h
          have m1 := decodeString_mono h1
          have m3 := ih h3
          omega

theorem decodeString_lt_length {buf : List Nat} {off : Nat} {r : List Nat × Nat}
    (h : decodeString buf off = some r) : off < buf.length := by
  cases hg : buf[off]? with
  | none => simp [decodeString, readUInt8, hg] at h
  | some len => exact (List.getElem?_eq_some.mp hg).1

theorem bufSlice_ext {buf ext : List Nat} {s e : Nat} (he : e ≤ buf.length) :
    bufSlice (buf ++ ext) s e = bufSlice buf s e := by
  unfold bufSlice
  rw [List.take_append_eq_append_take, Nat.sub_eq_zero_of_le he, List.take_zero,
      List.append_nil]

theorem getElem_ext {buf : List Nat} (ext : List Nat) {off b : Nat} (h : buf[off]? = some b) :
    (buf ++ ext)[off]? = some b := by
  rw [List.getElem?_append_left (List.getElem?_eq_some.mp h).1]
  exact h

theorem decodeString_ext {buf : List Nat} (ext : List Nat) {off : Nat} {v : List Nat} {n : Nat}
    (h : decodeString buf off = some (v, n)) (hn : n ≤ buf.length) :
    decodeString (buf ++ ext) off = some (v, n) := by
  cases hg : buf[off]? with
  | none => simp [decodeString, readUInt8, hg] at h
  | some len =>
    simp [decodeString, readUInt8, hg] at h
    obtain ⟨hv, hn'⟩ := h
    have hg2 := getElem_ext ext hg
    have hs : bufSlice (buf ++ ext) (off + 1) (off + 1 + len) = bufSlice buf (off + 1) (off + 1 + len) := by
      apply bufSlice_ext
      omega
    subst hn'
    subst hv
    simp [decodeString, readUInt8, hg2, hs]

theorem readUInt32LE_ext {buf : List Nat} (ext : List Nat) {off v : Nat}
    (h : readUInt32LE buf off = some v) : readUInt32LE (buf ++ ext) off = some v := by
  by_cases hle : off + 4 ≤ buf.length
  · have hle2 : off + 4 ≤ buf.length + ext.length := by omega
    simp [readUInt32LE, hle] at h
    simp [readUInt32LE, hle2, bufSlice_ext hle, h]
  · simp [readUInt32LE, hle] at h

theorem readBigUInt64LE_ext {buf : List Nat} (ext : List Nat) {off v : Nat}
    (h : readBigUInt64LE buf off = some v) : readBigUInt64LE (buf ++ ext) off = some v := by
  by_cases hle : off + 8 ≤ buf.length
  · have hle2 : off + 8 ≤ buf.length + ext.length := by omega
    simp [readBigUInt64LE, hle] at h
    simp [readBigUInt64LE, hle2, bufSlice_ext hle, h]
  · simp [readBigUInt64LE, hle] at h

theorem readUInt32LE_le_length {buf : List Nat} {off v : Nat}
    (h : readUInt32LE buf off = some v) : off + 4 ≤ buf.length := by
  by_cases hle : off + 4 ≤ buf.length
  · exact hle
  · simp [readUInt32LE, hle] at h

theorem readBigUInt64LE_le_length {buf : List Nat} {off v : Nat}
    (h : readBigUInt64LE buf off = some v) : off + 8 ≤ buf.length := by
  by_cases hle : off + 8 ≤ buf.length
  · exact hle
  · simp [readBigUInt64LE, hle] at h

theorem decodeInputs_ext {buf : List Nat} (ext : List Nat) : ∀ (c : Nat) {off : Nat} {l : List TransactionInput} {n : Nat},
    decodeInputs buf c off = some (l, n) → n ≤ buf.length →
    decodeInputs (buf ++ ext) c off = some (l, n) := by
  intro c
  induction c with
  | zero =>
    intro off l n h hn
    simp [decodeInputs] at h ⊢
    exact h
  | succ c ih =>
    intro off l n h hn
    cases h1 : decodeString buf off with
    | none => simp [decodeInputs, h1] at h
    | some p1 =>
      obtain ⟨txId, o1⟩ := p1
      cases h2 : readUInt32LE buf o1 with
      | none => simp [decodeInputs, h1, h2] at h
      | some idx =>
        cases h3 : decodeString buf (o1 + 4) with
        | none => simp [decodeInputs, h1, h2, h3] at h
        | some p3 =>
          obtain ⟨owner, o2⟩ := p3
          cases h4 : decodeString buf o2 with
          | none => simp [decodeInputs, h1, h2, h3, h4] at h
          | some p4 =>
            obtain ⟨sig, o3⟩ := p4
            cases h5 : decodeInputs buf c o3 with
            | none => simp [decodeInputs, h1, h2, h3, h4, h5] at h
            | some p5 =>
              obtain ⟨rest, o4⟩ := p5
              simp [decodeInputs, h1, h2, h3, h4, h5] at h
              obtain ⟨hl, hn4⟩ := h
              have b2 := readUInt32LE_le_length h2
              have b4 := decodeString_lt_length h4
              have m5 := decodeInputs_mono c h5
              have e1 := decodeString_ext ext h1 (by omega)
              have e2 := readUInt32LE_ext ext h2
              have e3 := decodeString_ext ext h3 (by omega)
              have e4 := decodeString_ext ext h4 (by omega)
              have e5 := ih h5 (by omega)
              simp [decodeInputs, e1, e2, e3, e4, e5, hl, hn4]

theorem decodeOutputs_ext {buf : List Nat} (ext : List Nat) : ∀ (c : Nat) {off : Nat} {l : List TransactionOutput} {n : Nat},
    decodeOutputs buf c off = some (l, n) → n ≤ buf.length →
    decodeOutputs (buf ++ ext) c off = some (l, n) := by
  intro c
  induction c with
  | zero =>
    intro off l n h hn
    simp [decodeOutputs] at h ⊢
    exact h
  | succ c ih =>
    intro off l n h hn
    cases h1 : decodeString buf off with
    | none => simp [decodeOutputs, h1] at h
    | some p1 =>
      obtain ⟨recipient, o1⟩ := p1
      cases h2 : readBigUInt64LE buf o1 with
      | none => simp [decodeOutputs, h1, h2] at h
      | some amt =>
        cases h3 : decodeOutputs buf c (o1 + 8) with
        | none => simp [decodeOutputs, h1, h2, h3] at h
        | some p3 =>
          obtain ⟨rest, o2⟩ := p3
          simp [decodeOutputs, h1, h2, h3] at h
          obtain ⟨hl, hn2⟩ := h
          have b2 := readBigUInt64LE_le_length h2
          have m3 := decodeOutputs_mono c h3
          have e1 := decodeString_ext ext h1 (by omega)
          have e2 := readBigUInt64LE_ext ext h2
          have e3 := ih h3 (by omega)
          simp [decodeOutputs, e1, e2, e3, hl, hn2]

theorem decodeTransactionAux_le_length {buf : List Nat} {t : Transaction} {n : Nat}
    (h : decodeTransactionAux buf = some (t, n)) : n ≤ buf.length := by
  cases h1 : decodeString buf 0 with
  | none => simp [decodeTransactionAux, h1] at h
  | some p1 =>
    obtain ⟨id, o1⟩ := p1
    cases h2 : readUInt8 buf o1 with
    | none => simp [decodeTransactionAux, h1, h2] at h
    | some nIn =>
      cases h3 : decodeInputs buf nIn (o1 + 1) with
      | none => simp [decodeTransactionAux, h1, h2, h3] at h
      | some p3 =>
        obtain ⟨inputs, o2⟩ := p3
        cases h4 : readUInt8 buf o2 with
        | none => simp [decodeTransactionAux, h1, h2, h3, h4] at h
        | some nOut =>
          cases h5 : decodeOutputs buf nOut (o2 + 1) with
          | none => simp [decodeTransactionAux, h1, h2, h3, h4, h5] at h
          | some p5 =>
            obtain ⟨outputs, o3⟩ := p5
            cases h6 : readBigUInt64LE buf o3 with
            | none => simp [decodeTransactionAux, h1, h2, h3, h4, h5, h6] at h
            | some ts =>
              simp [decodeTransactionAux, h1, h2, h3, h4, h5, h6] at h
              have b6 := readBigUInt64LE_le_length h6
              omega

theorem decodeTransactionAux_ext {buf : List Nat} (ext : List Nat) {t : Transaction} {n : Nat}
    (h : decodeTransactionAux buf = some (t, n)) :
    decodeTransactionAux (buf ++ ext) = some (t, n) := by
  cases h1 : decodeString buf 0 with
  | none => simp [decodeTransactionAux, h1] at h
  | some p1 =>
    obtain ⟨id, o1⟩ := p1
    cases h2 : readUInt8 buf o1 with
    | none => simp [decodeTransactionAux, h1, h2] at h
    | some nIn =>
      cases h3 : decodeInputs buf nIn (o1 + 1) with
      | none => simp [decodeTransactionAux, h1, h2, h3] at h
      | some p3 =>
        obtain ⟨inputs, o2⟩ := p3
        cases h4 : readUInt8 buf o2 with
        | none => simp [decodeTransactionAux, h1, h2, h3, h4] at h
        | some nOut =>
          cases h5 : decodeOutputs buf nOut (o2 + 1) with
          | none => simp [decodeTransactionAux, h1, h2, h3, h4, h5] at h
          | some p5 =>
            obtain ⟨outputs, o3⟩ := p5
            cases h6 : readBigUInt64LE buf o3 with
            | none => simp [decodeTransactionAux, h1, h2, h3, h4, h5, h6] at h
            | some ts =>
              simp [decodeTransactionAux, h1, h2, h3, h4, h5, h6] at h
              have b2 : o1 < buf.length := (List.getElem?_eq_some.mp h2).1
              have b4 : o2 < buf.length := (List.getElem?_eq_some.mp h4).1
              have b6 := readBigUInt64LE_le_length h6
              have e1 := decodeString_ext ext h1 (by omega)
              have e2 : readUInt8 (buf ++ ext) o1 = some nIn := getElem_ext ext h2
              have e3 := decodeInputs_ext ext nIn h3 (by
                have := decodeInputs_mono nIn h3
                omega)
              have e4 : readUInt8 (buf ++ ext) o2 = some nOut := getElem_ext ext h4
              have e5 := decodeOutputs_ext ext nOut h5 (by omega)
              have e6 := readBigUInt64LE_ext ext h6
              simp [decodeTransactionAux, e1, e2, e3, e4, e5, e6, h.1, h.2]

theorem encodeString_eq {s : List Nat} (h : s.length ≤ 255) :
    encodeString s = some (s.length :: s) := by
  simp [encodeString, Nat.not_lt.mpr h]

theorem encodeInput_eq {i : TransactionInput} (h : wfInput i) :
    encodeInput i = some ((i.utxoId.txId.length :: i.utxoId.txId) ++ u32LE i.utxoId.outputIndex ++
      (i.owner.length :: i.owner) ++ (i.signature.length :: i.signature)) := by
  obtain ⟨h1, h2, h3, h4⟩ := h
  simp [encodeInput, encodeString_eq h1, encodeString_eq h3, encodeString_eq h4,
    writeUInt32LE, h2]

theorem encodeOutput_eq {o : TransactionOutput} (h : wfOutput o) :
    encodeOutput o = some ((o.recipient.length :: o.recipient) ++ u64LE o.amount.toNat) := by
  obtain ⟨h1, h2, h3⟩ := h
  simp [encodeOutput, encodeString_eq h1, writeBigUInt64LE, h2, h3]

theorem decodeInputs_rt : ∀ (l : List TransactionInput) {bs buf : List Nat} {off : Nat},
    (∀ i ∈ l, wfInput i) → encodeInputs l = some bs →
    ∀ (pre suf : List Nat), buf = pre ++ (bs ++ suf) → off = pre.length →
    decodeInputs buf l.length off = some (l, off + bs.length) := by
  intro l
  induction l with
  | nil =>
    intro bs buf off hwf henc pre suf hbuf hoff
    simp [encodeInputs] at henc
    subst henc
    simp [decodeInputs]
  | cons i l ih =>
    intro bs buf off hwf henc pre suf hbuf hoff
    have hwi : wfInput i := hwf i (by simp)
    have hwl : ∀ j ∈ l, wfInput j := fun j hj => hwf j (by simp [hj])
    cases hc : encodeInput i with
    | none => simp [encodeInputs, hc] at henc
    | some c =>
      cases hrest : encodeInputs l with
      | none => simp [encodeInputs, hc, hrest] at henc
      | some rest =>
        simp [encodeInputs, hc, hrest] at henc
        rw [encodeInput_eq hwi] at hc
        have hc' := Option.some.inj hc
        -- step 1: txId
        have e1 : decodeString buf off = some (i.utxoId.txId, off + (i.utxoId.txId.length + 1)) := by
          apply decodeString_at pre i.utxoId.txId
            (u32LE i.utxoId.outputIndex ++ ((i.owner.length :: i.owner) ++
              ((i.signature.length :: i.signature) ++ (rest ++ suf)))) _ hoff
          simp [hbuf, ← henc, ← hc', List.append_assoc]
        -- step 2: outputIndex
        have e2 : readUInt32LE buf (off + (i.utxoId.txId.length + 1)) = some i.utxoId.outputIndex := by
          apply readUInt32LE_at (pre ++ (i.utxoId.txId.length :: i.utxoId.txId))
            ((i.owner.length :: i.owner) ++ ((i.signature.length :: i.signature) ++ (rest ++ suf))) hwi.2.1
          · simp [hbuf, ← henc, ← hc', List.append_assoc]
          · simp [hoff]
        -- step 3: owner
        have e3 : decodeString buf (off + (i.utxoId.txId.length + 1) + 4) =
            some (i.owner, off + (i.utxoId.txId.length + 1) + 4 + (i.owner.length + 1)) := by
          apply decodeString_at (pre ++ (i.utxoId.txId.length :: i.utxoId.txId) ++ u32LE i.utxoId.outputIndex)
            i.owner ((i.signature.length :: i.signature) ++ (rest ++ suf))
          · simp [hbuf, ← henc, ← hc', List.append_assoc]
          · simp [hoff, u32LE]
            omega
        -- step 4: signature
        have e4 : decodeString buf (off + (i.utxoId.txId.length + 1) + 4 + (i.owner.length + 1)) =
            some (i.signature, off + (i.utxoId.txId.length + 1) + 4 + (i.owner.length + 1) + (i.signature.length + 1)) := by
          apply decodeString_at (pre ++ (i.utxoId.txId.length :: i.utxoId.txId) ++ u32LE i.utxoId.outputIndex
            ++ (i.owner.length :: i.owner)) i.signature (rest ++ suf)
          · simp [hbuf, ← henc, ← hc', List.append_assoc]
          · simp [hoff, u32LE]
            omega
        -- step 5: the remaining inputs
        have e5 : decodeInputs buf l.length
            (off + (i.utxoId.txId.length + 1) + 4 + (i.owner.length + 1) + (i.signature.length + 1)) =
            some (l, off + (i.utxoId.txId.length + 1) + 4 + (i.owner.length + 1) + (i.signature.length + 1) + rest.length) := by
          apply ih hwl hrest (pre ++ c) suf
          · simp [hbuf, ← henc, ← hc', List.append_assoc]
          · simp [hoff, ← hc', u32LE]
            omega
        simp [decodeInputs, e1, e2, e3, e4, e5]
        have hcl : c.length = (i.utxoId.txId.length + 1) + 4 + (i.owner.length + 1) + (i.signature.length + 1) := by
          simp [← hc', u32LE]
          omega
        have hbs : bs.length = c.length + rest.length := by simp [← henc]
        omega

theorem decodeOutputs_rt : ∀ (l : List TransactionOutput) {bs buf : List Nat} {off : Nat},
    (∀ o ∈ l, wfOutput o) → encodeOutputs l = some bs →
    ∀ (pre suf : List Nat), buf = pre ++ (bs ++ suf) → off = pre.length →
    decodeOutputs buf l.length off = some (l.map jsRoundOutput, off + bs.length) := by
  intro l
  induction l with
  | nil =>
    intro bs buf off hwf henc pre suf hbuf hoff
    simp [encodeOutputs] at henc
    subst henc
    simp [decodeOutputs]
  | cons o l ih =>
    intro bs buf off hwf henc pre suf hbuf hoff
    have hwo : wfOutput o := hwf o (by simp)
    have hwl : ∀ j ∈ l, wfOutput j := fun j hj => hwf j (by simp [hj])
    cases hc : encodeOutput o with
    | none => simp [encodeOutputs, hc] at henc
    | some c =>
      cases hrest : encodeOutputs l with
      | none => simp [encodeOutputs, hc, hrest] at henc
      | some rest =>
        simp [encodeOutputs, hc, hrest] at henc
        rw [encodeOutput_eq hwo] at hc
        have hc' := Option.some.inj hc
        have e1 : decodeString buf off = some (o.recipient, off + (o.recipient.length + 1)) := by
          apply decodeString_at pre o.recipient (u64LE o.amount.toNat ++ (rest ++ suf)) _ hoff
          simp [hbuf, ← henc, ← hc', List.append_assoc]
        have hamt : o.amount.toNat < 18446744073709551616 := by
          obtain ⟨h1, h2, h3⟩ := hwo
          omega
        have e2 : readBigUInt64LE buf (off + (o.recipient.length + 1)) = some o.amount.toNat := by
          apply readBigUInt64LE_at (pre ++ (o.recipient.length :: o.recipient)) (rest ++ suf) hamt
          · simp [hbuf, ← henc, ← hc', List.append_assoc]
          · simp [hoff]
        have e3 : decodeOutputs buf l.length (off + (o.recipient.length + 1) + 8) =
            some (l.map jsRoundOutput, off + (o.recipient.length + 1) + 8 + rest.length) := by
          apply ih hwl hrest (pre ++ c) suf
          · simp [hbuf, ← henc, ← hc', List.append_assoc]
          · simp [hoff, ← hc', u64LE]
            omega
        simp [decodeOutputs, e1, e2, e3, jsRoundOutput]
        have hcl : c.length = (o.recipient.length + 1) + 8 := by
          simp [← hc', u64LE]
        have hbs : bs.length = c.length + rest.length := by simp [← henc]
        omega

theorem encodeInputs_some {l : List TransactionInput} (h : ∀ i ∈ l, wfInput i) :
    ∃ bs, encodeInputs l = some bs := by
  induction l with
  | nil => exact ⟨[], rfl⟩
  | cons i l ih =>
    obtain ⟨rest, hrest⟩ := ih (fun j hj => h j (by simp [hj]))
    have hstep : encodeInputs (i :: l) = some (((i.utxoId.txId.length :: i.utxoId.txId) ++
        u32LE i.utxoId.outputIndex ++ (i.owner.length :: i.owner) ++
        (i.signature.length :: i.signature)) ++ rest) := by
      simp [encodeInputs, encodeInput_eq (h i (by simp)), hrest]
    exact ⟨_, hstep⟩

theorem encodeOutputs_some {l : List TransactionOutput} (h : ∀ o ∈ l, wfOutput o) :
    ∃ bs, encodeOutputs l = some bs := by
  induction l with
  | nil => exact ⟨[], rfl⟩
  | cons o l ih =>
    obtain ⟨rest, hrest⟩ := ih (fun j hj => h j (by simp [hj]))
    have hstep : encodeOutputs (o :: l) = some (((o.recipient.length :: o.recipient) ++
        u64LE o.amount.toNat) ++ rest) := by
      simp [encodeOutputs, encodeOutput_eq (h o (by simp)), hrest]
    exact ⟨_, hstep⟩

theorem roundTrip_aux {t : Transaction} (h : wfTransaction t) :
    ∃ bs, encodeTransaction t = some bs ∧
      decodeTransactionAux bs = some (jsRound t, bs.length) := by
  obtain ⟨hid, hinLen, hin, houtLen, hout, hts0, hts⟩ := h
  obtain ⟨inB, hinB⟩ := encodeInputs_some hin
  obtain ⟨outB, houtB⟩ := encodeOutputs_some hout
  have henc : encodeTransaction t = some ((t.id.length :: t.id) ++
      t.inputs.length :: inB ++ t.outputs.length :: outB ++ u64LE t.timestamp.toNat) := by
    simp [encodeTransaction, encodeString_eq hid, hinB, houtB, writeBigUInt64LE,
      Nat.not_lt.mpr hinLen, Nat.not_lt.mpr houtLen, hts0, hts]
  refine ⟨_, henc, ?_⟩
  set bs := (t.id.length :: t.id) ++ t.inputs.length :: inB ++ t.outputs.length :: outB ++
    u64LE t.timestamp.toNat with hbs
  have e1 : decodeString bs 0 = some (t.id, 0 + (t.id.length + 1)) := by
    apply decodeString_at ([] : List Nat) t.id
      (t.inputs.length :: inB ++ t.outputs.length :: outB ++ u64LE t.timestamp.toNat)
    · simp [hbs, List.append_assoc]
    · simp
  have e2 : bs[t.id.length + 1]? = some t.inputs.length := by
    apply getByte_at (t.id.length :: t.id) t.inputs.length
      (inB ++ t.outputs.length :: outB ++ u64LE t.timestamp.toNat)
    · simp [hbs, List.append_assoc]
    · simp
  have e3 : decodeInputs bs t.inputs.length (t.id.length + 1 + 1) =
      some (t.inputs, t.id.length + 1 + 1 + inB.length) := by
    apply decodeInputs_rt t.inputs hin hinB ((t.id.length :: t.id) ++ [t.inputs.length])
      (t.outputs.length :: outB ++ u64LE t.timestamp.toNat)
    · simp [hbs, List.append_assoc]
    · simp
  have e4 : bs[t.id.length + 1 + 1 + inB.length]? = some t.outputs.length := by
    apply getByte_at ((t.id.length :: t.id) ++ t.inputs.length :: inB) t.outputs.length
      (outB ++ u64LE t.timestamp.toNat)
    · simp [hbs, List.append_assoc]
    · simp
      omega
  have e5 : decodeOutputs bs t.outputs.length (t.id.length + 1 + 1 + inB.length + 1) =
      some (t.outputs.map jsRoundOutput, t.id.length + 1 + 1 + inB.length + 1 + outB.length) := by
    apply decodeOutputs_rt t.outputs hout houtB
      ((t.id.length :: t.id) ++ t.inputs.length :: inB ++ [t.outputs.length])
      (u64LE t.timestamp.toNat)
    · simp [hbs, List.append_assoc]
    · simp
      omega
  have e6 : readBigUInt64LE bs (t.id.length + 1 + 1 + inB.length + 1 + outB.length) =
      some t.timestamp.toNat := by
    apply readBigUInt64LE_at ((t.id.length :: t.id) ++ t.inputs.length :: inB ++
      t.outputs.length :: outB) ([] : List Nat) (by omega)
    · simp [hbs, List.append_assoc]
    · simp
      omega
  have e3' : decodeInputs bs t.inputs.length (0 + (t.id.length + 1) + 1) =
      some (t.inputs, t.id.length + 1 + 1 + inB.length) := by
    rw [Nat.zero_add]
    exact e3
  simp [decodeTransactionAux, readUInt8, e1, e2, e3, e3', e4, e5, e6, jsRound]
  simp [hbs, u64LE]
  omega

/-! ## Truncated buffers fail to decode; encoding succeeds exactly on
format-capacity-respecting transactions -/

theorem decode_truncation {t : Transaction} {bs : List Nat} {k : Nat}
    (hwf : wfTransaction t) (henc : encodeTransaction t = some bs) (hk : k < bs.length) :
    decodeTransaction (bs.take k) = none := by
  obtain ⟨bs', henc', hdec⟩ := roundTrip_aux hwf
  rw [henc] at henc'
  obtain rfl := Option.some.inj henc'
  cases hd : decodeTransactionAux (bs.take k) with
  | none => simp [decodeTransaction, hd]
  | some r =>
    obtain ⟨t', n⟩ := r
    exfalso
    have hb := decodeTransactionAux_le_length hd
    have hlen : (bs.take k).length = k := by
      simp [List.length_take]
      omega
    have hext := decodeTransactionAux_ext (bs.drop k) hd
    rw [List.take_append_drop, hdec] at hext
    have hn := (Prod.mk.injEq _ _ _ _).mp (Option.some.inj hext)
    omega

theorem encodeString_some_iff {s : List Nat} :
    (∃ b, encodeString s = some b) ↔ s.length ≤ 255 := by
  by_cases h : 255 < s.length <;> simp [encodeString, h] <;> omega

theorem encodeInput_some_iff {i : TransactionInput} :
    (∃ b, encodeInput i = some b) ↔ wfInput i := by
  by_cases h1 : 255 < i.utxoId.txId.length <;>
  by_cases h2 : i.utxoId.outputIndex < 4294967296 <;>
  by_cases h3 : 255 < i.owner.length <;>
  by_cases h4 : 255 < i.signature.length <;>
  simp [encodeInput, encodeString, writeUInt32LE, wfInput, h1, h2, h3, h4] <;> omega

theorem encodeOutput_some_iff {o : TransactionOutput} :
    (∃ b, encodeOutput o = some b) ↔ wfOutput o := by
  unfold wfOutput
  by_cases h1 : 255 < o.recipient.length
  · simp [encodeOutput, encodeString, h1]
  · by_cases h2 : 0 ≤ o.amount ∧ o.amount < 18446744073709551616
    · simp [encodeOutput, encodeString, writeBigUInt64LE, h1, h2]
      omega
    · simp [encodeOutput, encodeString, writeBigUInt64LE, h1, h2]

theorem encodeInputs_some_iff {l : List TransactionInput} :
    (∃ b, encodeInputs l = some b) ↔ ∀ i ∈ l, wfInput i := by
  induction l with
  | nil => simp [encodeInputs]
  | cons i l ih =>
    constructor
    · rintro ⟨b, hb⟩
      cases h1 : encodeInput i with
      | none => simp [encodeInputs, h1] at hb
      | some c =>
        cases h2 : encodeInputs l with
        | none => simp [encodeInputs, h1, h2] at hb
        | some rest =>
          have hwi := encodeInput_some_iff.mp ⟨c, h1⟩
          have hwl := ih.mp ⟨rest, h2⟩
          intro j hj
          rcases List.mem_cons.mp hj with h | h
          · exact h ▸ hwi
          · exact hwl j h
    · intro h
      obtain ⟨b, hb⟩ := encodeInputs_some h
      exact ⟨b, hb⟩

theorem encodeOutputs_some_iff {l : List TransactionOutput} :
    (∃ b, encodeOutputs l = some b) ↔ ∀ o ∈ l, wfOutput o := by
  induction l with
  | nil => simp [encodeOutputs]
  | cons o l ih =>
    constructor
    · rintro ⟨b, hb⟩
      cases h1 : encodeOutput o with
      | none => simp [encodeOutputs, h1] at hb
      | some c =>
        cases h2 : encodeOutputs l with
        | none => simp [encodeOutputs, h1, h2] at hb
        | some rest =>
          have hwo := encodeOutput_some_iff.mp ⟨c, h1⟩
          have hwl := ih.mp ⟨rest, h2⟩
          intro j hj
          rcases List.mem_cons.mp hj with h | h
          · exact h ▸ hwo
          · exact hwl j h
    · intro h
      obtain ⟨b, hb⟩ := encodeOutputs_some h
      exact ⟨b, hb⟩

theorem encodeTransaction_some_iff {t : Transaction} :
    (∃ b, encodeTransaction t = some b) ↔ wfTransaction t := by
  constructor
  · rintro ⟨b, hb⟩
    cases h1 : encodeString t.id with
    | none => simp [encodeTransaction, h1] at hb
    | some idB =>
      by_cases h2 : 255 < t.inputs.length
      · simp [encodeTransaction, h1, h2] at hb
      · cases h3 : encodeInputs t.inputs with
        | none => simp [encodeTransaction, h1, h2, h3] at hb
        | some inB =>
          by_cases h4 : 255 < t.outputs.length
          · simp [encodeTransaction, h1, h2, h3, h4] at hb
          · cases h5 : encodeOutputs t.outputs with
            | none => simp [encodeTransaction, h1, h2, h3, h4, h5] at hb
            | some outB =>
              cases h6 : writeBigUInt64LE t.timestamp with
              | none => simp [encodeTransaction, h1, h2, h3, h4, h5, h6] at hb
              | some tsB =>
                have hts : 0 ≤ t.timestamp ∧ t.timestamp < 18446744073709551616 := by
                  by_cases hc : 0 ≤ t.timestamp ∧ t.timestamp < 18446744073709551616
                  · exact hc
                  · simp [writeBigUInt64LE, hc] at h6
                exact ⟨encodeString_some_iff.mp ⟨idB, h1⟩, by omega,
                  encodeInputs_some_iff.mp ⟨inB, h3⟩, by omega,
                  encodeOutputs_some_iff.mp ⟨outB, h5⟩, hts.1, hts.2⟩
  · intro h
    obtain ⟨bs, hbs, _⟩ := roundTrip_aux h
    exact ⟨bs, hbs⟩

theorem encodeTransaction_none_iff {t : Transaction} :
    encodeTransaction t = none ↔ ¬ wfTransaction t := by
  rw [← encodeTransaction_some_iff]
  cases h : encodeTransaction t <;> simp

theorem validateInputs_nil (g : List Nat → Nat → Option UnspentOutput)
    (v : List Nat → List Nat → List Nat → Bool) (t : Transaction) (s : VState) :
    validateInputs g v t s [] = s := rfl

theorem validateInputs_cons (g : List Nat → Nat → Option UnspentOutput)
    (v : List Nat → List Nat → List Nat → Bool) (t : Transaction) (s : VState)
    (i : TransactionInput) (l : List TransactionInput) :
    validateInputs g v t s (i :: l) = validateInputs g v t (processInput g v t s i) l := rfl

theorem processInput_factor (g : List Nat → Nat → Option UnspentOutput)
    (v : List Nat → List Nat → List Nat → Bool) (t : Transaction)
    (e : List ValidationError) (u : List (List Nat)) (m : Int) (i : TransactionInput) :
    processInput g v t ⟨e, u, m⟩ i =
      ⟨e ++ (processInput g v t ⟨[], u, m⟩ i).errors,
       (processInput g v t ⟨[], u, m⟩ i).usedUTXOs,
       (processInput g v t ⟨[], u, m⟩ i).inputSum⟩ := by
  unfold processInput
  cases g i.utxoId.txId i.utxoId.outputIndex <;> simp <;> split_ifs <;> simp

theorem validateInputs_factor (g : List Nat → Nat → Option UnspentOutput)
    (v : List Nat → List Nat → List Nat → Bool) (t : Transaction) :
    ∀ (l : List TransactionInput) (e : List ValidationError) (u : List (List Nat)) (m : Int),
    validateInputs g v t ⟨e, u, m⟩ l =
      ⟨e ++ (validateInputs g v t ⟨[], u, m⟩ l).errors,
       (validateInputs g v t ⟨[], u, m⟩ l).usedUTXOs,
       (validateInputs g v t ⟨[], u, m⟩ l).inputSum⟩ := by
  intro l
  induction l with
  | nil => intro e u m; simp [validateInputs_nil]
  | cons i l ih =>
    intro e u m
    obtain ⟨d, u', m', hd⟩ : ∃ d u' m', processInput g v t (⟨[], u, m⟩ : VState) i = ⟨d, u', m'⟩ :=
      ⟨_, _, _, rfl⟩
    have h1 : processInput g v t (⟨e, u, m⟩ : VState) i = ⟨e ++ d, u', m'⟩ := by
      rw [processInput_factor, hd]
    rw [validateInputs_cons, h1, validateInputs_cons, hd, ih (e ++ d) u' m', ih d u' m']
    simp

theorem processInput_used_mem (g : List Nat → Nat → Option UnspentOutput)
    (v : List Nat → List Nat → List Nat → Bool) (t : Transaction)
    (s : VState) (i : TransactionInput) (k : List Nat) :
    k ∈ (processInput g v t s i).usedUTXOs ↔
      k ∈ s.usedUTXOs ∨ (resolvesPositive g i ∧ txKey i = k) := by
  unfold processInput
  cases hg : g i.utxoId.txId i.utxoId.outputIndex with
  | none => simp [resolvesPositive, hg]
  | some u =>
    by_cases hmem : txKey i ∈ s.usedUTXOs
    · simp only [hmem, if_true]
      constructor
      · exact Or.inl
      · rintro (h | ⟨_, rfl⟩)
        · exact h
        · exact hmem
    · by_cases hamt : u.amount ≤ 0
      · have : ¬ (0 : Int) < u.amount := by omega
        simp [resolvesPositive, hg, hmem, hamt, this]
      · have hpos : (0 : Int) < u.amount := by omega
        by_cases hv : v (createTransactionDataForSigning_ t) i.signature i.owner
        · simp [resolvesPositive, hg, hmem, hamt, hv, hpos, List.mem_append, eq_comm]
        · simp [resolvesPositive, hg, hmem, hamt, hv, hpos, List.mem_append, eq_comm]

theorem validateInputs_used_mem (g : List Nat → Nat → Option UnspentOutput)
    (v : List Nat → List Nat → List Nat → Bool) (t : Transaction) :
    ∀ (l : List TransactionInput) (s : VState) (k : List Nat),
    k ∈ (validateInputs g v t s l).usedUTXOs ↔
      k ∈ s.usedUTXOs ∨ ∃ i ∈ l, resolvesPositive g i ∧ txKey i = k := by
  intro l
  induction l with
  | nil => intro s k; simp [validateInputs_nil]
  | cons i l ih =>
    intro s k
    rw [validateInputs_cons, ih, processInput_used_mem]
    simp only [List.mem_cons]
    constructor
    · rintro ((h | h) | ⟨j, hj, hres⟩)
      · exact Or.inl h
      · exact Or.inr ⟨i, Or.inl rfl, h⟩
      · exact Or.inr ⟨j, Or.inr hj, hres⟩
    · rintro (h | ⟨j, (rfl | hj), hres⟩)
      · exact Or.inl (Or.inl h)
      · exact Or.inl (Or.inr hres)
      · exact Or.inr ⟨j, hj, hres⟩

theorem processInput_codes (g : List Nat → Nat → Option UnspentOutput)
    (v : List Nat → List Nat → List Nat → Bool) (t : Transaction)
    (s : VState) (i : TransactionInput) :
    ∀ e ∈ (processInput g v t s i).errors, e ∈ s.errors ∨ e.code ≠ .AMOUNT_MISMATCH := by
  intro e he
  unfold processInput at he
  cases hg : g i.utxoId.txId i.utxoId.outputIndex with
  | none =>
    rw [hg] at he
    simp at he
    rcases he with h | h
    · exact Or.inl h
    · subst h
      exact Or.inr (by simp [utxoNotFoundError, createValidationError])
  | some u =>
    rw [hg] at he
    by_cases h1 : txKey i ∈ s.usedUTXOs
    · simp [h1] at he
      rcases he with h | h
      · exact Or.inl h
      · subst h
        exact Or.inr (by simp [doubleSpendingError, createValidationError])
    · by_cases h2 : u.amount ≤ 0
      · simp [h1, h2] at he
        rcases he with h | h
        · exact Or.inl h
        · subst h
          exact Or.inr (by simp [negativeInputAmountError, createValidationError])
      · by_cases h3 : v (createTransactionDataForSigning_ t) i.signature i.owner
        · simp [h1, h2, h3] at he
          exact Or.inl he
        · simp [h1, h2, h3] at he
          rcases he with h | h
          · exact Or.inl h
          · subst h
            exact Or.inr (by simp [invalidSignatureError, createValidationError])

theorem validateInputs_codes (g : List Nat → Nat → Option UnspentOutput)
    (v : List Nat → List Nat → List Nat → Bool) (t : Transaction) :
    ∀ (l : List TransactionInput) (s : VState),
    ∀ e ∈ (validateInputs g v t s l).errors, e ∈ s.errors ∨ e.code ≠ .AMOUNT_MISMATCH := by
  intro l
  induction l with
  | nil => intro s e he; exact Or.inl he
  | cons i l ih =>
    intro s e he
    rw [validateInputs_cons] at he
    rcases ih _ e he with h | h
    · exact processInput_codes g v t s i e h
    · exact Or.inr h

theorem validateOutputs_nil (s : List ValidationError × Int) : validateOutputs s [] = s := rfl

theorem validateOutputs_cons (s : List ValidationError × Int) (o : TransactionOutput)
    (l : List TransactionOutput) :
    validateOutputs s (o :: l) = validateOutputs (processOutput s o) l := rfl

theorem processOutput_factor (e : List ValidationError) (m : Int) (o : TransactionOutput) :
    processOutput (e, m) o = (e ++ (processOutput ([], m) o).1, (processOutput ([], m) o).2) := by
  unfold processOutput
  split_ifs <;> simp

theorem validateOutputs_factor :
    ∀ (l : List TransactionOutput) (e : List ValidationError) (m : Int),
    validateOutputs (e, m) l = (e ++ (validateOutputs ([], m) l).1, (validateOutputs ([], m) l).2) := by
  intro l
  induction l with
  | nil => intro e m; simp [validateOutputs_nil]
  | cons o l ih =>
    intro e m
    obtain ⟨d, m', hd⟩ : ∃ d m', processOutput ([], m) o = (d, m') := ⟨_, _, rfl⟩
    have h1 : processOutput (e, m) o = (e ++ d, m') := by
      rw [processOutput_factor, hd]
    rw [validateOutputs_cons, h1, validateOutputs_cons, hd, ih (e ++ d) m', ih d m']
    simp

theorem processOutput_codes (s : List ValidationError × Int) (o : TransactionOutput) :
    ∀ e ∈ (processOutput s o).1, e ∈ s.1 ∨ e.code ≠ .AMOUNT_MISMATCH := by
  unfold processOutput
  split_ifs <;> intro e he
  · simp [List.mem_append] at he
    rcases he with h | h
    · exact Or.inl h
    · subst h
      exact Or.inr (by simp [negativeOutputAmountError, createValidationError])
  · exact Or.inl he

theorem validateOutputs_codes :
    ∀ (l : List TransactionOutput) (s : List ValidationError × Int),
    ∀ e ∈ (validateOutputs s l).1, e ∈ s.1 ∨ e.code ≠ .AMOUNT_MISMATCH := by
  intro l
  induction l with
  | nil => intro s e he; exact Or.inl he
  | cons o l ih =>
    intro s e he
    rw [validateOutputs_cons] at he
    rcases ih _ e he with h | h
    · exact processOutput_codes s o e h
    · exact Or.inr h

theorem initialErrors_codes (t : Transaction) :
    ∀ e ∈ initialErrors t, e.code = .EMPTY_INPUTS := by
  unfold initialErrors
  split_ifs <;> intro e he <;> simp at he
  subst he
  simp [emptyInputsError, createValidationError]

theorem emptyOutputsErrors_codes (t : Transaction) :
    ∀ e ∈ emptyOutputsErrors t, e.code = .EMPTY_OUTPUTS := by
  unfold emptyOutputsErrors
  split_ifs <;> intro e he <;> simp at he
  subst he
  simp [emptyOutputsError, createValidationError]

theorem inputJson_congr : ∀ (l₁ l₂ : List TransactionInput),
    l₁.map (fun i => (i.utxoId, i.owner)) = l₂.map (fun i => (i.utxoId, i.owner)) →
    l₁.map inputJsonForSigning = l₂.map inputJsonForSigning := by
  intro l₁
  induction l₁ with
  | nil =>
    intro l₂ h
    cases l₂ with
    | nil => rfl
    | cons j l => simp at h
  | cons i l ih =>
    intro l₂ h
    cases l₂ with
    | nil => simp at h
    | cons j l₂' =>
      simp at h
      obtain ⟨⟨hu, ho⟩, hrest⟩ := h
      simp [inputJsonForSigning, hu, ho, ih _ hrest]

theorem payload_ignores_signatures (t1 t2 : Transaction)
    (hid : t1.id = t2.id)
    (hin : t1.inputs.map (fun i => (i.utxoId, i.owner)) =
           t2.inputs.map (fun i => (i.utxoId, i.owner)))
    (hout : t1.outputs = t2.outputs) (hts : t1.timestamp = t2.timestamp) :
    createTransactionDataForSigning_ t1 = createTransactionDataForSigning_ t2 := by
  unfold createTransactionDataForSigning_
  rw [hid, hout, hts, inputJson_congr _ _ hin]

theorem processInputWith_payload (g : List Nat → Nat → Option UnspentOutput)
    (v : List Nat → List Nat → List Nat → Bool) (t : Transaction) :
    processInputWith g v (createTransactionDataForSigning_ t) = processInput g v t := rfl

theorem validateTransactionOnce_eq (g : List Nat → Nat → Option UnspentOutput)
    (v : List Nat → List Nat → List Nat → Bool) (t : Transaction) :
    validateTransactionOnce g v t = validateTransaction g v t := rfl

theorem validateInputs_append (g : List Nat → Nat → Option UnspentOutput)
    (v : List Nat → List Nat → List Nat → Bool) (t : Transaction) (s : VState)
    (l₁ l₂ : List TransactionInput) :
    validateInputs g v t s (l₁ ++ l₂) = validateInputs g v t (validateInputs g v t s l₁) l₂ :=
  List.foldl_append _ _ _ _

theorem processInput_emits_ds_iff (g : List Nat → Nat → Option UnspentOutput)
    (v : List Nat → List Nat → List Nat → Bool) (t : Transaction)
    (s : VState) (i : TransactionInput) :
    (processInput g v t s i).errors = s.errors ++ [doubleSpendingError i] ↔
      (∃ u, g i.utxoId.txId i.utxoId.outputIndex = some u) ∧ txKey i ∈ s.usedUTXOs := by
  cases hg : g i.utxoId.txId i.utxoId.outputIndex with
  | none =>
    simp [processInput, hg]
    intro h
    have hc := congrArg ValidationError.code h
    simp [utxoNotFoundError, doubleSpendingError, createValidationError] at hc
  | some u =>
    by_cases h1 : txKey i ∈ s.usedUTXOs
    · simp [processInput, hg, h1]
    · by_cases h2 : u.amount ≤ 0
      · simp [processInput, hg, h1, h2]
        intro h
        have hc := congrArg ValidationError.code h
        simp [negativeInputAmountError, doubleSpendingError, createValidationError] at hc
      · by_cases h3 : v (createTransactionDataForSigning_ t) i.signature i.owner
        · simp [processInput, hg, h1, h2, h3]
        · simp [processInput, hg, h1, h2, h3]
          intro h
          have hc := congrArg ValidationError.code h
          simp [invalidSignatureError, doubleSpendingError, createValidationError] at hc

theorem processInput_dup (g : List Nat → Nat → Option UnspentOutput)
    (v : List Nat → List Nat → List Nat → Bool) (t : Transaction)
    (s : VState) (i : TransactionInput) (u : UnspentOutput)
    (hu : g i.utxoId.txId i.utxoId.outputIndex = some u)
    (hmem : txKey i ∈ s.usedUTXOs) :
    processInput g v t s i = { s with errors := s.errors ++ [doubleSpendingError i] } := by
  simp [processInput, hu, hmem]

theorem processInput_recorded (g : List Nat → Nat → Option UnspentOutput)
    (v : List Nat → List Nat → List Nat → Bool) (t : Transaction)
    (s : VState) (i : TransactionInput) (u : UnspentOutput)
    (hu : g i.utxoId.txId i.utxoId.outputIndex = some u)
    (hmem : txKey i ∉ s.usedUTXOs) (hpos : 0 < u.amount) :
    (processInput g v t s i).inputSum = s.inputSum + u.amount ∧
    (processInput g v t s i).usedUTXOs = s.usedUTXOs ++ [txKey i] ∧
    (processInput g v t s i).errors =
      s.errors ++ (if v (createTransactionDataForSigning_ t) i.signature i.owner then []
                   else [invalidSignatureError i]) := by
  have hneg : ¬ u.amount ≤ 0 := by omega
  by_cases hv : v (createTransactionDataForSigning_ t) i.signature i.owner <;>
    simp [processInput, hu, hmem, hneg, hv]

theorem validateInputs_errors_extend (g : List Nat → Nat → Option UnspentOutput)
    (v : List Nat → List Nat → List Nat → Bool) (t : Transaction)
    (s : VState) (l : List TransactionInput) :
    ∃ tail, (validateInputs g v t s l).errors = s.errors ++ tail := by
  obtain ⟨e, u, m, hs⟩ : ∃ e u m, s = ⟨e, u, m⟩ := ⟨_, _, _, rfl⟩
  subst hs
  rw [validateInputs_factor]
  exact ⟨_, rfl⟩

theorem validateTransaction_errors_shape (g : List Nat → Nat → Option UnspentOutput)
    (v : List Nat → List Nat → List Nat → Bool) (t : Transaction) :
    ∃ tail, (validateTransaction g v t).errors =
      (validateInputs g v t ⟨initialErrors t, [], 0⟩ t.inputs).errors ++ tail := by
  simp only [validateTransaction]
  rw [validateOutputs_factor]
  dsimp only
  split
  · refine ⟨emptyOutputsErrors t ++ ((validateOutputs ([], 0) t.outputs).1 ++
      [amountMismatchError
        (validateInputs g v t ⟨initialErrors t, [], 0⟩ t.inputs).inputSum
        (validateOutputs ([], 0) t.outputs).2]), ?_⟩
    simp [List.append_assoc]
  · refine ⟨emptyOutputsErrors t ++ (validateOutputs ([], 0) t.outputs).1, ?_⟩
    simp [List.append_assoc]

theorem validateTransaction_errors_extend (g : List Nat → Nat → Option UnspentOutput)
    (v : List Nat → List Nat → List Nat → Bool) (t : Transaction)
    (l₁ : List TransactionInput) (i : TransactionInput) (l₂ : List TransactionInput)
    (hsplit : t.inputs = l₁ ++ i :: l₂) :
    ∃ rest, (validateTransaction g v t).errors =
      (processInput g v t (validateInputs g v t ⟨initialErrors t, [], 0⟩ l₁) i).errors ++ rest := by
  obtain ⟨tail1, h1⟩ := validateTransaction_errors_shape g v t
  rw [hsplit, validateInputs_append, validateInputs_cons] at h1
  obtain ⟨tail2, h2⟩ := validateInputs_errors_extend g v t
    (processInput g v t (validateInputs g v t ⟨initialErrors t, [], 0⟩ l₁) i) l₂
  rw [h2] at h1
  exact ⟨tail2 ++ tail1, by rw [h1, List.append_assoc]⟩

theorem encodeInputN_squash (i : NTransactionInput) :
    encodeInputN i = encodeInput (nSquashInput i) := rfl

theorem encodeOutputN_squash (o : NTransactionOutput) :
    encodeOutputN o = encodeOutput (nSquashOutput o) := rfl

theorem encodeInputsN_squash : ∀ l : List NTransactionInput,
    encodeInputsN l = encodeInputs (l.map nSquashInput) := by
  intro l
  induction l with
  | nil => rfl
  | cons i l ih => simp [encodeInputsN, encodeInputs, encodeInputN_squash, ih]

theorem encodeOutputsN_squash : ∀ l : List NTransactionOutput,
    encodeOutputsN l = encodeOutputs (l.map nSquashOutput) := by
  intro l
  induction l with
  | nil => rfl
  | cons o l ih => simp [encodeOutputsN, encodeOutputs, encodeOutputN_squash, ih]

theorem encodeTransactionN_squash (t : NTransaction) :
    encodeTransactionN t = encodeTransaction (nSquash t) := by
  simp [encodeTransactionN, encodeTransaction, encodeStringN, nSquash,
    encodeInputsN_squash, encodeOutputsN_squash]

theorem decode_encode_exact {t : Transaction} (hwf : wfTransaction t)
    (hamounts : ∀ o ∈ t.outputs, jsNum o.amount.toNat = o.amount.toNat)
    (hts : jsNum t.timestamp.toNat = t.timestamp.toNat) {bs : List Nat}
    (henc : encodeTransaction t = some bs) : decodeTransaction bs = some t := by
  obtain ⟨bs', henc', hdec⟩ := roundTrip_aux hwf
  rw [henc] at henc'
  obtain rfl := Option.some.inj henc'
  have hout : t.outputs.map jsRoundOutput = t.outputs := by
    have h1 : ∀ o ∈ t.outputs, jsRoundOutput o = o := by
      intro o ho
      have h2 := hwf.2.2.2.2.1 o ho
      have h3 : Int.ofNat o.amount.toNat = o.amount := by
        show (o.amount.toNat : Int) = o.amount
        exact Int.toNat_of_nonneg h2.2.1
      unfold jsRoundOutput
      rw [hamounts o ho, h3]
    calc t.outputs.map jsRoundOutput = t.outputs.map id := List.map_congr_left h1
    _ = t.outputs := List.map_id t.outputs
  have hjs : jsRound t = t := by
    have h5 : Int.ofNat t.timestamp.toNat = t.timestamp := by
      show (t.timestamp.toNat : Int) = t.timestamp
      exact Int.toNat_of_nonneg hwf.2.2.2.2.2.1
    unfold jsRound
    rw [hout, hts, h5]
  simp [decodeTransaction, hdec, hjs]

/-! ## Claim theorems -/

/-- C1: for every transaction whose id, input txId, owner, signature and
output recipient strings are at most 255 UTF-8 bytes, whose input and output
counts are at most 255, and whose amounts and timestamp are unsigned
integers fitting in 64 bits (as values of the `number` fields, i.e. exactly
representable doubles, which `jsNum v = v` expresses), decoding the encoding
yields the transaction back field-for-field. -/
theorem c1_round_trip (t : Transaction)
    (hwf : wfTransaction t)
    (hamounts : ∀ o ∈ t.outputs, jsNum o.amount.toNat = o.amount.toNat)
    (hts : jsNum t.timestamp.toNat = t.timestamp.toNat) :
    ∃ bs, encodeTransaction t = some bs ∧ decodeTransaction bs = some t := by
  obtain ⟨bs, henc, _⟩ := roundTrip_aux hwf
  exact ⟨bs, henc, decode_encode_exact hwf hamounts hts henc⟩

/-- Witness for C1 at a concrete transaction. -/
theorem c1_round_trip_witness :
    (wfTransaction ⟨ascii "tx", [⟨⟨ascii "a", 3⟩, ascii "al", ascii "sg"⟩], [⟨ascii "bob", 100⟩], 42⟩ ∧
     (∀ o ∈ (⟨ascii "tx", [⟨⟨ascii "a", 3⟩, ascii "al", ascii "sg"⟩], [⟨ascii "bob", 100⟩], 42⟩ : Transaction).outputs,
        jsNum o.amount.toNat = o.amount.toNat) ∧
     jsNum ((42 : Int)).toNat = ((42 : Int)).toNat) ∧
    ∃ bs, encodeTransaction ⟨ascii "tx", [⟨⟨ascii "a", 3⟩, ascii "al", ascii "sg"⟩], [⟨ascii "bob", 100⟩], 42⟩ = some bs ∧
      decodeTransaction bs = some ⟨ascii "tx", [⟨⟨ascii "a", 3⟩, ascii "al", ascii "sg"⟩], [⟨ascii "bob", 100⟩], 42⟩ :=
  ⟨⟨by decide, by decide, by decide⟩,
   c1_round_trip _ (by decide) (by decide) (by decide)⟩

/-- C2 counterexample: a buffer that is a valid 11-byte encoding followed by
one unconsumed trailing byte decodes successfully instead of failing, so the
trailing-bytes clause of the claim is false of the code. -/
theorem c2_counterexample :
    decodeTransaction [0, 0, 0, 0, 0, 0, 0, 0, 0, 0, 0, 99] = some ⟨[], [], [], 0⟩ := by
  decide

/-- C2 amended: decoding fails explicitly whenever the buffer is shorter
than a read demands — a successful decode consumes only offsets inside the
buffer (first conjunct), and decoding any strict prefix of a well-formed
encoding fails (second conjunct) — but trailing bytes after the timestamp
are NOT rejected: decoding succeeds and silently ignores them. -/
theorem c2_decode_failure_conditions :
    (∀ (buf : List Nat) (t : Transaction) (n : Nat),
       decodeTransactionAux buf = some (t, n) → n ≤ buf.length) ∧
    (∀ (t : Transaction) (bs : List Nat) (k : Nat),
       wfTransaction t → encodeTransaction t = some bs → k < bs.length →
       decodeTransaction (bs.take k) = none) :=
  ⟨fun _ _ _ h => decodeTransactionAux_le_length h,
   fun _ _ _ hwf henc hk => decode_truncation hwf henc hk⟩

/-- Witness for C2 at a concrete transaction and truncation point. -/
theorem c2_decode_failure_witness :
    (wfTransaction ⟨[], [], [⟨[], 7⟩], 1⟩ ∧
     encodeTransaction ⟨[], [], [⟨[], 7⟩], 1⟩ =
       some [0, 0, 1, 0, 7, 0, 0, 0, 0, 0, 0, 0, 1, 0, 0, 0, 0, 0, 0, 0] ∧
     5 < ([0, 0, 1, 0, 7, 0, 0, 0, 0, 0, 0, 0, 1, 0, 0, 0, 0, 0, 0, 0] : List Nat).length) ∧
    decodeTransaction (([0, 0, 1, 0, 7, 0, 0, 0, 0, 0, 0, 0, 1, 0, 0, 0, 0, 0, 0, 0] : List Nat).take 5) = none :=
  ⟨⟨by decide, by decide, by decide⟩,
   c2_decode_failure_conditions.2 ⟨[], [], [⟨[], 7⟩], 1⟩ _ 5 (by decide) (by decide) (by decide)⟩

/-- C3: the decoder routes the 8-byte wire amount and timestamp through
`Number(...)`, which rounds to the nearest double above 2^53: the wire
amount 2^53 + 1 = 9007199254740993 decodes to 9007199254740992, so 64-bit
values are not preserved exactly end-to-end. -/
theorem c3_amount_precision_loss :
    decodeTransaction [0, 0, 1, 0, 1, 0, 0, 0, 0, 0, 32, 0, 0, 0, 0, 0, 0, 0, 0, 0] =
      some ⟨[], [], [⟨[], 9007199254740992⟩], 0⟩ ∧
    bytesToNatLE [1, 0, 0, 0, 0, 0, 32, 0] = 9007199254740993 ∧
    (9007199254740992 : Int) ≠ 9007199254740993 := by
  decide

/-- C4 counterexample: the claim's final sentence is false — two inputs with
structurally distinct triples DO produce a DoubleSpending error, because the
dedup key is the colon-joined string and ":" inside txId or owner causes
collisions. -/
theorem c4_counterexample :
    (∃ e ∈ (validateTransaction poolC4 verifyC4 txC4).errors,
       e.code = ValidationErrorCode.DOUBLE_SPENDING) ∧
    txC4.inputs.map (fun i => (i.utxoId.txId, i.owner, i.utxoId.outputIndex)) =
      [(ascii "a:b", ascii "c", 1), (ascii "a", ascii "b:c", 1)] ∧
    ((ascii "a:b", ascii "c", 1) : List Nat × List Nat × Nat) ≠ (ascii "a", ascii "b:c", 1) := by
  decide

/-- C4 amended: for an input at any position, a DoubleSpending error is
emitted exactly when the input resolves in the pool and its colon-joined key
string `txId:owner:outputIndex` equals the key of some earlier input that
resolved with a positive amount (structurally distinct triples with equal
key strings do collide); a duplicate input leaves the running input sum and
the seen-key set unchanged, and the emitted error survives into the final
result. -/
theorem c4_double_spending_key (g : List Nat → Nat → Option UnspentOutput)
    (v : List Nat → List Nat → List Nat → Bool) (t : Transaction)
    (l₁ : List TransactionInput) (i : TransactionInput) (l₂ : List TransactionInput)
    (hsplit : t.inputs = l₁ ++ i :: l₂) :
    ((processInput g v t (validateInputs g v t ⟨initialErrors t, [], 0⟩ l₁) i).errors =
       (validateInputs g v t ⟨initialErrors t, [], 0⟩ l₁).errors ++ [doubleSpendingError i] ↔
     ((∃ u, g i.utxoId.txId i.utxoId.outputIndex = some u) ∧
      ∃ j ∈ l₁, resolvesPositive g j ∧ txKey j = txKey i)) ∧
    (txKey i ∈ (validateInputs g v t ⟨initialErrors t, [], 0⟩ l₁).usedUTXOs →
      (processInput g v t (validateInputs g v t ⟨initialErrors t, [], 0⟩ l₁) i).inputSum =
        (validateInputs g v t ⟨initialErrors t, [], 0⟩ l₁).inputSum ∧
      (processInput g v t (validateInputs g v t ⟨initialErrors t, [], 0⟩ l₁) i).usedUTXOs =
        (validateInputs g v t ⟨initialErrors t, [], 0⟩ l₁).usedUTXOs) ∧
    ((processInput g v t (validateInputs g v t ⟨initialErrors t, [], 0⟩ l₁) i).errors =
       (validateInputs g v t ⟨initialErrors t, [], 0⟩ l₁).errors ++ [doubleSpendingError i] →
     ∃ rest, (validateTransaction g v t).errors =
       (validateInputs g v t ⟨initialErrors t, [], 0⟩ l₁).errors ++ [doubleSpendingError i] ++ rest) := by
  refine ⟨?_, ?_, ?_⟩
  · rw [processInput_emits_ds_iff, validateInputs_used_mem]
    simp
  · intro hmem
    cases hg : g i.utxoId.txId i.utxoId.outputIndex with
    | none => simp [processInput, hg]
    | some u =>
      rw [processInput_dup g v t _ i u hg hmem]
      simp
  · intro hds
    obtain ⟨rest, hrest⟩ := validateTransaction_errors_extend g v t l₁ i l₂ hsplit
    rw [hds] at hrest
    exact ⟨rest, by rw [hrest, List.append_assoc]⟩

/-- Witness for C4 at the colliding concrete inputs. -/
theorem c4_double_spending_key_witness :
    (txC4.inputs = [⟨⟨ascii "a:b", 1⟩, ascii "c", ascii "s1"⟩] ++
       ⟨⟨ascii "a", 1⟩, ascii "b:c", ascii "s2"⟩ :: []) ∧
    (processInput poolC4 verifyC4 txC4
       (validateInputs poolC4 verifyC4 txC4 ⟨initialErrors txC4, [], 0⟩
         [⟨⟨ascii "a:b", 1⟩, ascii "c", ascii "s1"⟩])
       ⟨⟨ascii "a", 1⟩, ascii "b:c", ascii "s2"⟩).errors =
      (validateInputs poolC4 verifyC4 txC4 ⟨initialErrors txC4, [], 0⟩
        [⟨⟨ascii "a:b", 1⟩, ascii "c", ascii "s1"⟩]).errors ++
        [doubleSpendingError ⟨⟨ascii "a", 1⟩, ascii "b:c", ascii "s2"⟩] :=
  ⟨by decide,
   (c4_double_spending_key poolC4 verifyC4 txC4 _ _ [] (by decide)).1.mpr
     ⟨⟨⟨ascii "y", 5⟩, by decide⟩,
      ⟨⟨ascii "a:b", 1⟩, ascii "c", ascii "s1"⟩, by decide,
      ⟨⟨ascii "x", 5⟩, by decide, by decide⟩, by decide⟩⟩

/-- C5: `AmountMismatch` is emitted exactly when the input-loop sum (which
excludes unresolved inputs, key-duplicate inputs, and inputs resolving to a
non-positive amount) differs from the output-loop sum (which excludes
outputs with non-positive amounts); the error carries both sums in its
message and comes last; and a transaction with no inputs and no outputs has
sums 0 and 0, producing exactly `EmptyInputs` and `EmptyOutputs` and no
`AmountMismatch`. -/
theorem c5_amount_mismatch (g : List Nat → Nat → Option UnspentOutput)
    (v : List Nat → List Nat → List Nat → Bool) (t : Transaction) :
    ((∃ e ∈ (validateTransaction g v t).errors,
        e.code = ValidationErrorCode.AMOUNT_MISMATCH) ↔
      (inputPass g v t).inputSum ≠ (outputPass g v t).2) ∧
    ((inputPass g v t).inputSum ≠ (outputPass g v t).2 →
      (validateTransaction g v t).errors.getLast? =
        some (amountMismatchError (inputPass g v t).inputSum (outputPass g v t).2)) ∧
    (t.inputs = [] → t.outputs = [] →
      (validateTransaction g v t).errors = [emptyInputsError, emptyOutputsError]) := by
  have herr : (validateTransaction g v t).errors =
      if (inputPass g v t).inputSum ≠ (outputPass g v t).2
      then (outputPass g v t).1 ++
        [amountMismatchError (inputPass g v t).inputSum (outputPass g v t).2]
      else (outputPass g v t).1 := rfl
  have hnoAM : ∀ e ∈ (outputPass g v t).1, e.code ≠ ValidationErrorCode.AMOUNT_MISMATCH := by
    intro e he
    unfold outputPass at he
    rcases validateOutputs_codes t.outputs _ e he with h | h
    · simp only [List.mem_append] at h
      rcases h with h | h
      · unfold inputPass at h
        rcases validateInputs_codes g v t t.inputs _ e h with h2 | h2
        · have h3 := initialErrors_codes t e h2
          simp [h3]
        · exact h2
      · have h3 := emptyOutputsErrors_codes t e h
        simp [h3]
    · exact h
  refine ⟨?_, ?_, ?_⟩
  · rw [herr]
    by_cases hc : (inputPass g v t).inputSum ≠ (outputPass g v t).2
    · rw [if_pos hc]
      constructor
      · intro _
        exact hc
      · intro _
        refine ⟨amountMismatchError (inputPass g v t).inputSum (outputPass g v t).2,
          by simp, by simp [amountMismatchError, createValidationError]⟩
    · rw [if_neg hc]
      constructor
      · rintro ⟨e, he, hcode⟩
        exact absurd hcode (hnoAM e he)
      · intro h
        exact absurd h hc
  · intro hc
    rw [herr, if_pos hc]
    exact List.getLast?_concat _
  · intro h1 h2
    rw [herr]
    have hip : inputPass g v t = ⟨[emptyInputsError], [], 0⟩ := by
      simp [inputPass, h1, validateInputs_nil, initialErrors]
    have hop : outputPass g v t = ([emptyInputsError, emptyOutputsError], 0) := by
      simp [outputPass, h2, validateOutputs_nil, hip, emptyOutputsErrors]
    rw [hip, hop]
    simp

/-- Witness for C5: input sum 100, output sum 90, and the mismatch error with
both sums is the last error. -/
theorem c5_amount_mismatch_witness :
    ((inputPass poolW verifyW txC5).inputSum ≠ (outputPass poolW verifyW txC5).2) ∧
    (validateTransaction poolW verifyW txC5).errors.getLast? =
      some (amountMismatchError (inputPass poolW verifyW txC5).inputSum
        (outputPass poolW verifyW txC5).2) :=
  ⟨by decide, (c5_amount_mismatch poolW verifyW txC5).2.1 (by decide)⟩

/-- C6: for an input that resolves with a positive amount and is not a key
duplicate, the resolved amount is added to the running input sum regardless
of the signature check; a failing verification appends exactly one
`InvalidSignature` error (which survives into the final result), and a
passing one appends nothing. -/
theorem c6_invalid_signature_independent (g : List Nat → Nat → Option UnspentOutput)
    (v : List Nat → List Nat → List Nat → Bool) (t : Transaction)
    (l₁ : List TransactionInput) (i : TransactionInput) (l₂ : List TransactionInput)
    (u : UnspentOutput)
    (hsplit : t.inputs = l₁ ++ i :: l₂)
    (hu : g i.utxoId.txId i.utxoId.outputIndex = some u)
    (hmem : txKey i ∉ (validateInputs g v t ⟨initialErrors t, [], 0⟩ l₁).usedUTXOs)
    (hpos : 0 < u.amount) :
    (processInput g v t (validateInputs g v t ⟨initialErrors t, [], 0⟩ l₁) i).inputSum =
      (validateInputs g v t ⟨initialErrors t, [], 0⟩ l₁).inputSum + u.amount ∧
    (v (createTransactionDataForSigning_ t) i.signature i.owner = false →
      (processInput g v t (validateInputs g v t ⟨initialErrors t, [], 0⟩ l₁) i).errors =
        (validateInputs g v t ⟨initialErrors t, [], 0⟩ l₁).errors ++ [invalidSignatureError i] ∧
      ∃ rest, (validateTransaction g v t).errors =
        (validateInputs g v t ⟨initialErrors t, [], 0⟩ l₁).errors ++
          [invalidSignatureError i] ++ rest) ∧
    (v (createTransactionDataForSigning_ t) i.signature i.owner = true →
      (processInput g v t (validateInputs g v t ⟨initialErrors t, [], 0⟩ l₁) i).errors =
        (validateInputs g v t ⟨initialErrors t, [], 0⟩ l₁).errors) := by
  obtain ⟨hsum, hused, herrs⟩ := processInput_recorded g v t _ i u hu hmem hpos
  refine ⟨hsum, ?_, ?_⟩
  · intro hv
    have h1 : (processInput g v t (validateInputs g v t ⟨initialErrors t, [], 0⟩ l₁) i).errors =
        (validateInputs g v t ⟨initialErrors t, [], 0⟩ l₁).errors ++ [invalidSignatureError i] := by
      rw [herrs, hv]
      simp
    refine ⟨h1, ?_⟩
    obtain ⟨rest, hrest⟩ := validateTransaction_errors_extend g v t l₁ i l₂ hsplit
    rw [h1] at hrest
    exact ⟨rest, by rw [hrest, List.append_assoc]⟩
  · intro hv
    rw [herrs, hv]
    simp

/-- Witness for C6: the amount is summed although verification fails, and the
InvalidSignature error is appended. -/
theorem c6_invalid_signature_witness :
    (txC6.inputs = [] ++ ⟨⟨ascii "a", 0⟩, ascii "alice", ascii "bad"⟩ :: [] ∧
     poolW (ascii "a") 0 = some ⟨ascii "alice", 100⟩ ∧
     txKey ⟨⟨ascii "a", 0⟩, ascii "alice", ascii "bad"⟩ ∉
       (validateInputs poolW verifyC6 txC6 ⟨initialErrors txC6, [], 0⟩ []).usedUTXOs ∧
     (0 : Int) < 100 ∧
     verifyC6 (createTransactionDataForSigning_ txC6)
       (ascii "bad") (ascii "alice") = false) ∧
    (processInput poolW verifyC6 txC6
       (validateInputs poolW verifyC6 txC6 ⟨initialErrors txC6, [], 0⟩ [])
       ⟨⟨ascii "a", 0⟩, ascii "alice", ascii "bad"⟩).inputSum =
      (validateInputs poolW verifyC6 txC6 ⟨initialErrors txC6, [], 0⟩ []).inputSum + 100 ∧
    (processInput poolW verifyC6 txC6
       (validateInputs poolW verifyC6 txC6 ⟨initialErrors txC6, [], 0⟩ [])
       ⟨⟨ascii "a", 0⟩, ascii "alice", ascii "bad"⟩).errors =
      (validateInputs poolW verifyC6 txC6 ⟨initialErrors txC6, [], 0⟩ []).errors ++
        [invalidSignatureError ⟨⟨ascii "a", 0⟩, ascii "alice", ascii "bad"⟩] :=
  ⟨⟨by decide, by decide, by decide, by decide, by decide⟩,
   (c6_invalid_signature_independent poolW verifyC6 txC6 [] _ [] ⟨ascii "alice", 100⟩
     (by decide) (by decide) (by decide) (by decide)).1,
   ((c6_invalid_signature_independent poolW verifyC6 txC6 [] _ [] ⟨ascii "alice", 100⟩
     (by decide) (by decide) (by decide) (by decide)).2.1 (by decide)).1⟩

/-- C7: `validateTransaction` is a total function (the model returns a
`ValidationResult` for every pool, verifier and transaction — nothing
throws); its `valid` flag is true exactly when the error list is empty, and
the error list is the concatenation, in discovery order, of the
empty-inputs check, the input-loop errors (in input order), the
empty-outputs check, the output-loop errors (in output order), and finally
the amount-mismatch check. -/
theorem c7_total_result (g : List Nat → Nat → Option UnspentOutput)
    (v : List Nat → List Nat → List Nat → Bool) (t : Transaction) :
    ((validateTransaction g v t).valid = true ↔ (validateTransaction g v t).errors = []) ∧
    (validateTransaction g v t).errors =
      (inputPass g v t).errors ++ emptyOutputsErrors t ++
      (validateOutputs ([], 0) t.outputs).1 ++
      (if (inputPass g v t).inputSum ≠ (outputPass g v t).2
       then [amountMismatchError (inputPass g v t).inputSum (outputPass g v t).2]
       else []) := by
  constructor
  · exact List.isEmpty_iff
  · have herr : (validateTransaction g v t).errors =
        if (inputPass g v t).inputSum ≠ (outputPass g v t).2
        then (outputPass g v t).1 ++
          [amountMismatchError (inputPass g v t).inputSum (outputPass g v t).2]
        else (outputPass g v t).1 := rfl
    have hop : (outputPass g v t).1 =
        (inputPass g v t).errors ++ emptyOutputsErrors t ++
        (validateOutputs ([], 0) t.outputs).1 := by
      unfold outputPass
      rw [validateOutputs_factor]
    rw [herr]
    by_cases hc : (inputPass g v t).inputSum ≠ (outputPass g v t).2
    · rw [if_pos hc, if_pos hc, hop]
    · rw [if_neg hc, if_neg hc, hop, List.append_nil]

/-- C8: for every transaction whose fields lie in the data model's ranges
(output index an unsigned 32-bit integer, amounts and timestamp unsigned
64-bit integers), encoding fails — aborting with no byte sequence, never
truncating — exactly when the input count exceeds 255, the output count
exceeds 255, or some string field exceeds 255 UTF-8 bytes. -/
theorem c8_encode_capacity (t : Transaction)
    (hidx : ∀ i ∈ t.inputs, i.utxoId.outputIndex < 4294967296)
    (hamt : ∀ o ∈ t.outputs, 0 ≤ o.amount ∧ o.amount < 18446744073709551616)
    (hts : 0 ≤ t.timestamp ∧ t.timestamp < 18446744073709551616) :
    encodeTransaction t = none ↔
      255 < t.inputs.length ∨ 255 < t.outputs.length ∨ 255 < t.id.length ∨
      (∃ i ∈ t.inputs, 255 < i.utxoId.txId.length ∨ 255 < i.owner.length ∨
        255 < i.signature.length) ∨
      (∃ o ∈ t.outputs, 255 < o.recipient.length) := by
  rw [encodeTransaction_none_iff]
  constructor
  · intro hnwf
    by_contra hno
    push_neg at hno
    obtain ⟨h1, h2, h3, h4, h5⟩ := hno
    refine hnwf ⟨by omega, by omega, ?_, by omega, ?_, hts.1, hts.2⟩
    · intro i hi
      obtain ⟨ha, hb, hc⟩ := h4 i hi
      exact ⟨by omega, hidx i hi, by omega, by omega⟩
    · intro o ho
      exact ⟨by have := h5 o ho; omega, (hamt o ho).1, (hamt o ho).2⟩
  · intro hdisj hwf
    obtain ⟨w1, w2, w3, w4, w5, w6, w7⟩ := hwf
    rcases hdisj with h | h | h | ⟨i, hi, h⟩ | ⟨o, ho, h⟩
    · omega
    · omega
    · omega
    · obtain ⟨a, b, c, d⟩ := w3 i hi
      rcases h with h | h | h <;> omega
    · obtain ⟨a, b, c⟩ := w5 o ho
      omega

set_option maxRecDepth 8192 in
/-- Witness for C8: a transaction with 256 inputs fails to encode, and one
whose id is 256 bytes fails to encode. -/
theorem c8_encode_capacity_witness :
    ((∀ i ∈ (List.replicate 256 (⟨⟨[], 0⟩, [], []⟩ : TransactionInput)),
        i.utxoId.outputIndex < 4294967296) ∧
     (0 : Int) ≤ 0 ∧ (0 : Int) < 18446744073709551616 ∧
     255 < (List.replicate 256 (⟨⟨[], 0⟩, [], []⟩ : TransactionInput)).length ∧
     255 < (List.replicate 256 (97 : Nat)).length) ∧
    encodeTransaction ⟨[], List.replicate 256 ⟨⟨[], 0⟩, [], []⟩, [], 0⟩ = none ∧
    encodeTransaction ⟨List.replicate 256 97, [], [], 0⟩ = none :=
  ⟨⟨by decide, by decide, by decide, by decide, by decide⟩,
   (c8_encode_capacity ⟨[], List.replicate 256 ⟨⟨[], 0⟩, [], []⟩, [], 0⟩
     (by decide) (by decide) ⟨by decide, by decide⟩).mpr (Or.inl (by decide)),
   (c8_encode_capacity ⟨List.replicate 256 97, [], [], 0⟩
     (by decide) (by decide) ⟨by decide, by decide⟩).mpr
     (Or.inr (Or.inr (Or.inl (by decide))))⟩

/-- C9: the canonical unsigned payload is a deterministic function of the
transaction's id, each input's (utxoId, owner), the outputs, and the
timestamp, and of nothing else — in particular not of any signature; since
it takes only the transaction, it is byte-identical across the
transaction's inputs, and computing it once per transaction and reusing it
for every input's verification yields exactly the same validation result as
recomputing it per input. -/
theorem c9_signing_payload :
    (∀ t1 t2 : Transaction, t1.id = t2.id →
      t1.inputs.map (fun i => (i.utxoId, i.owner)) =
        t2.inputs.map (fun i => (i.utxoId, i.owner)) →
      t1.outputs = t2.outputs → t1.timestamp = t2.timestamp →
      createTransactionDataForSigning_ t1 = createTransactionDataForSigning_ t2) ∧
    (∀ (g : List Nat → Nat → Option UnspentOutput)
       (v : List Nat → List Nat → List Nat → Bool) (t : Transaction),
      validateTransactionOnce g v t = validateTransaction g v t) :=
  ⟨payload_ignores_signatures, fun g v t => validateTransactionOnce_eq g v t⟩

/-- Witness for C9: two transactions that differ only in an input signature
have byte-identical signing payloads. -/
theorem c9_signing_payload_witness :
    ((⟨ascii "t", [⟨⟨ascii "a", 0⟩, ascii "alice", ascii "sig1"⟩], [⟨ascii "bob", 9⟩], 4⟩ :
        Transaction).id =
      (⟨ascii "t", [⟨⟨ascii "a", 0⟩, ascii "alice", ascii "sig2"⟩], [⟨ascii "bob", 9⟩], 4⟩ :
        Transaction).id ∧
     (⟨ascii "t", [⟨⟨ascii "a", 0⟩, ascii "alice", ascii "sig1"⟩], [⟨ascii "bob", 9⟩], 4⟩ :
        Transaction).inputs.map (fun i => (i.utxoId, i.owner)) =
      (⟨ascii "t", [⟨⟨ascii "a", 0⟩, ascii "alice", ascii "sig2"⟩], [⟨ascii "bob", 9⟩], 4⟩ :
        Transaction).inputs.map (fun i => (i.utxoId, i.owner))) ∧
    createTransactionDataForSigning_
      ⟨ascii "t", [⟨⟨ascii "a", 0⟩, ascii "alice", ascii "sig1"⟩], [⟨ascii "bob", 9⟩], 4⟩ =
    createTransactionDataForSigning_
      ⟨ascii "t", [⟨⟨ascii "a", 0⟩, ascii "alice", ascii "sig2"⟩], [⟨ascii "bob", 9⟩], 4⟩ :=
  ⟨⟨rfl, by decide⟩,
   c9_signing_payload.1
     ⟨ascii "t", [⟨⟨ascii "a", 0⟩, ascii "alice", ascii "sig1"⟩], [⟨ascii "bob", 9⟩], 4⟩
     ⟨ascii "t", [⟨⟨ascii "a", 0⟩, ascii "alice", ascii "sig2"⟩], [⟨ascii "bob", 9⟩], 4⟩
     rfl (by decide) rfl rfl⟩

/-- C10: a null/undefined string field never makes `encodeTransaction`
fail on account of its nullness — the encoder behaves exactly as if the
field were the empty string (`encodeString` starts with `str ?? ""`),
so the field is written as a zero-length string and decoding the result
returns the empty string in its place rather than an error. -/
theorem c10_null_string_fields (nt : NTransaction) :
    encodeTransactionN nt = encodeTransaction (nSquash nt) ∧
    (∀ bs, encodeTransactionN nt = some bs → wfTransaction (nSquash nt) →
      (∀ o ∈ (nSquash nt).outputs, jsNum o.amount.toNat = o.amount.toNat) →
      jsNum (nSquash nt).timestamp.toNat = (nSquash nt).timestamp.toNat →
      decodeTransaction bs = some (nSquash nt)) := by
  refine ⟨encodeTransactionN_squash nt, ?_⟩
  intro bs henc hwf hamts hts
  rw [encodeTransactionN_squash nt] at henc
  exact decode_encode_exact hwf hamts hts henc

/-- Witness for C10: a transaction with null id, txId, owner, signature and
recipient encodes successfully and decodes to empty strings in all five
places. -/
theorem c10_null_string_fields_witness :
    (encodeTransactionN ⟨none, [⟨⟨none, 1⟩, none, none⟩], [⟨none, 2⟩], 3⟩ =
       some [0, 1, 0, 1, 0, 0, 0, 0, 0, 1, 0, 2, 0, 0, 0, 0, 0, 0, 0, 3, 0, 0, 0, 0, 0, 0, 0] ∧
     wfTransaction (nSquash ⟨none, [⟨⟨none, 1⟩, none, none⟩], [⟨none, 2⟩], 3⟩)) ∧
    encodeTransactionN ⟨none, [⟨⟨none, 1⟩, none, none⟩], [⟨none, 2⟩], 3⟩ =
      encodeTransaction (nSquash ⟨none, [⟨⟨none, 1⟩, none, none⟩], [⟨none, 2⟩], 3⟩) ∧
    decodeTransaction [0, 1, 0, 1, 0, 0, 0, 0, 0, 1, 0, 2, 0, 0, 0, 0, 0, 0, 0, 3, 0, 0, 0, 0, 0, 0, 0] =
      some ⟨[], [⟨⟨[], 1⟩, [], []⟩], [⟨[], 2⟩], 3⟩ :=
  ⟨⟨by decide, by decide⟩,
   (c10_null_string_fields ⟨none, [⟨⟨none, 1⟩, none, none⟩], [⟨none, 2⟩], 3⟩).1,
   (c10_null_string_fields ⟨none, [⟨⟨none, 1⟩, none, none⟩], [⟨none, 2⟩], 3⟩).2
     [0, 1, 0, 1, 0, 0, 0, 0, 0, 1, 0, 2, 0, 0, 0, 0, 0, 0, 0, 3, 0, 0, 0, 0, 0, 0, 0]
     (by decide) (by decide) (by decide) (by decide)⟩

end UTXO
